import Mathlib

/-!
Verification development for the recipe-cataloger page-to-catalog pipeline
(`recipe_cataloger.py` and `backend/llm.py`).

The Python source is shallowly embedded below.  Conventions used throughout:

* Python dicts holding recipe/chapter/catalog data become Lean structures whose
  fields are the keys the source reads or writes.  A key that may be absent is
  an `Option`; a key read with `.get(k, [])` is a plain `List` (absent = `[]`).
  A key that is present but bound to `None` is collapsed onto the absent case;
  no code path distinguishes the two for the fields modelled here.
* Python string truthiness (`if s:`) is `strTruthy` (`none` and `some ""` are
  falsy).
* Wall-clock timestamps (`datetime.now().isoformat()`) are omitted from log
  entries: they are write-only in the source and no claim mentions them.
* Network and model-output effects are oracle parameters: an HTTP call is a
  value of `HttpResult`, a parsed model reply is a payload structure, and the
  `json.loads` of the standard library is an explicit `decode` parameter.
-/

/-! ### Python string helpers (`str.lower`, `str.strip`, `re` character classes) -/

/-- `str.lower` restricted to ASCII (all strings handled by the claims are ASCII). -/
def pyLower (s : String) : String := String.mk (s.data.map Char.toLower)

/-- Python `\s` / `str.strip` whitespace class (ASCII part). -/
def isSpaceChar (c : Char) : Bool :=
  c == ' ' || c == '\t' || c == '\n' || c == '\r' || c == '\x0b' || c == '\x0c'

/-- Python `\w` word-character class (ASCII part): alphanumerics and underscore. -/
def isWordChar (c : Char) : Bool := c.isAlphanum || c == '_'

/-- Python `str.strip()`: drop leading and trailing whitespace. -/
def pyStrip (s : String) : String :=
  let l := s.data.dropWhile isSpaceChar
  String.mk ((l.reverse.dropWhile isSpaceChar).reverse)

/-- `re.sub(r'\s+', ' ', s)`: collapse each whitespace run to a single blank.
    The boolean records whether the previous character was part of a run. -/
def collapseAux : Bool → List Char → List Char
  | _, [] => []
  | prevSpace, c :: rest =>
    if isSpaceChar c then
      if prevSpace then collapseAux true rest
      else ' ' :: collapseAux true rest
    else c :: collapseAux false rest

/-- `normalize_recipe_name` (recipe_cataloger.py:797): lowercase, strip, delete
    characters that are neither word characters nor whitespace, collapse runs of
    whitespace to single blanks. -/
def normalizeRecipeName (name : String) : String :=
  let s1 := pyStrip (pyLower name)
  let s2 := s1.data.filter (fun c => isWordChar c || isSpaceChar c)
  String.mk (collapseAux false s2)

/-- `needle` is a prefix of `hay` (char lists). -/
def listIsPref : List Char → List Char → Bool
  | [], _ => true
  | _ :: _, [] => false
  | a :: as, b :: bs => a == b && listIsPref as bs

/-- Python `needle in hay` for strings, on char lists. -/
def listHasSub (needle : List Char) : List Char → Bool
  | [] => needle.isEmpty
  | c :: t => listIsPref needle (c :: t) || listHasSub needle t

/-! ### `difflib.SequenceMatcher` (no junk, autojunk inert on short strings)

`fuzzy_match_names` computes `SequenceMatcher(None, n1, n2).ratio()`.  The
normalized names involved are far below the 200-character autojunk threshold
and no junk predicate is given, so `b2j` holds every position of `b` and the
junk/popular post-passes of `find_longest_match` are identity. -/

/-- Current best block of `find_longest_match`: start in `a`, start in `b`, size. -/
structure FlmBest where
  besti : Nat
  bestj : Nat
  bestsize : Nat
deriving DecidableEq

/-- Character of `l` at index `i` (indices fed to this are in range). -/
def chAt (l : List Char) (i : Nat) : Char := l.getD i ' '

/-- Inner loop of `find_longest_match` for one row `i`: scan the positions
    `j ∈ [blo, bhi)` with `b[j] == a[i]` in increasing order, building the new
    `j2len` table and updating the best block on strictly larger sizes
    (so the earliest maximal block wins, as in the source). -/
def flmRow (a b : List Char) (i : Nat) (oldJ2 : List (Nat × Nat)) (blo bhi : Nat)
    (st : FlmBest) : List (Nat × Nat) × FlmBest :=
  (List.range (bhi - blo)).foldl
    (fun (p : List (Nat × Nat) × FlmBest) off =>
      let j := blo + off
      if chAt b j == chAt a i then
        let k := (if j = 0 then 0 else (oldJ2.lookup (j - 1)).getD 0) + 1
        let st' := if p.2.bestsize < k then ⟨i + 1 - k, j + 1 - k, k⟩ else p.2
        ((j, k) :: p.1, st')
      else p)
    ([], st)

/-- The dynamic-programming scan of `find_longest_match` over rows `[alo, ahi)`. -/
def flmScan (a b : List Char) (alo ahi blo bhi : Nat) : FlmBest :=
  ((List.range (ahi - alo)).foldl
    (fun (p : List (Nat × Nat) × FlmBest) off =>
      flmRow a b (alo + off) p.1 blo bhi p.2)
    ([], ⟨alo, blo, 0⟩)).2

/-- Leftward extension loop of `find_longest_match`
    (`while besti > alo and bestj > blo and a[besti-1] == b[bestj-1]`). -/
def flmExtendL (a b : List Char) (alo blo : Nat) : Nat → FlmBest → FlmBest
  | 0, st => st
  | fuel + 1, st =>
    if alo < st.besti && blo < st.bestj &&
        (chAt a (st.besti - 1) == chAt b (st.bestj - 1)) then
      flmExtendL a b alo blo fuel ⟨st.besti - 1, st.bestj - 1, st.bestsize + 1⟩
    else st

/-- Rightward extension loop of `find_longest_match`. -/
def flmExtendR (a b : List Char) (ahi bhi : Nat) : Nat → FlmBest → FlmBest
  | 0, st => st
  | fuel + 1, st =>
    if st.besti + st.bestsize < ahi && st.bestj + st.bestsize < bhi &&
        (chAt a (st.besti + st.bestsize) == chAt b (st.bestj + st.bestsize)) then
      flmExtendR a b ahi bhi fuel ⟨st.besti, st.bestj, st.bestsize + 1⟩
    else st

/-- `SequenceMatcher.find_longest_match` on `a[alo:ahi]` / `b[blo:bhi]`.
    With no junk the two junk-aware post-passes of the source are identity and
    are not reproduced. -/
def findLongestMatch (a b : List Char) (alo ahi blo bhi : Nat) : FlmBest :=
  let st := flmScan a b alo ahi blo bhi
  let st := flmExtendL a b alo blo st.besti st
  flmExtendR a b ahi bhi (ahi - st.besti) st

/-- Total size of `get_matching_blocks`: recursively take the longest match and
    recurse on the regions to its left and right.  Each recursion strictly
    shrinks both intervals, so fuel `|a| + |b| + 1` never runs out. -/
def matchBlocksSum (a b : List Char) : Nat → Nat → Nat → Nat → Nat → Nat
  | 0, _, _, _, _ => 0
  | fuel + 1, alo, ahi, blo, bhi =>
    let m := findLongestMatch a b alo ahi blo bhi
    if m.bestsize = 0 then 0
    else
      m.bestsize
        + matchBlocksSum a b fuel alo m.besti blo m.bestj
        + matchBlocksSum a b fuel (m.besti + m.bestsize) ahi (m.bestj + m.bestsize) bhi

/-- Sum of matching-block sizes over the whole strings. -/
def seqMatchSum (a b : List Char) : Nat :=
  matchBlocksSum a b (a.length + b.length + 1) 0 a.length 0 b.length

/-- `SequenceMatcher.ratio() >= 0.85`, i.e. `2*M/T >= 0.85`, as the exact
    rational test `40*M >= 17*T`.  The boundary case `2M/T = 17/20` rounds (to
    nearest double) onto the double nearest `0.85`, and away from the boundary
    the rational gap `>= 1/(20*T)` dwarfs the rounding error of one double
    division, so this decides exactly as the floating comparison does. -/
def simRatioGe85 (m t : Nat) : Bool := Nat.ble (17 * t) (40 * m)

/-- Body of `fuzzy_match_names` on the already-normalized names `n1`, `n2`:
    equality, then substring containment either way, then the similarity-ratio
    test. -/
def fuzzyCore (n1 n2 : String) : Bool :=
  if n1 == n2 then true
  else if listHasSub n1.data n2.data || listHasSub n2.data n1.data then true
  else simRatioGe85 (seqMatchSum n1.data n2.data) (n1.length + n2.length)

/-- `fuzzy_match_names` (recipe_cataloger.py:806) with the default threshold
    `0.85` used at every call site: normalize both names, then compare. -/
def fuzzyMatchNames (name1 name2 : String) : Bool :=
  fuzzyCore (normalizeRecipeName name1) (normalizeRecipeName name2)

/-! ### Data model

Recipe / chapter / catalog dictionaries, restricted to the keys the embedded
code reads or writes. -/

/-- Python `if s:` truthiness for an optional string. -/
def strTruthy : Option String → Bool
  | none => false
  | some s => !(s == "")

/-- Python `a or b` for an optional string `a` and string default `b`. -/
def pyOr (a : Option String) (b : String) : String :=
  match a with
  | some s => if s == "" then b else s
  | none => b

/-- An entry of a recipe's `sub_recipes` array. -/
structure SubRecipe where
  name : Option String := none
  ingredients : List String := []
  instructions : List String := []
deriving DecidableEq

/-- A recipe dictionary (the `recipes` array entries of the catalog and of the
    extraction results). -/
structure Recipe where
  name : String := ""
  chapter : Option String := none
  chapter_number : Option String := none
  meal_type : Option String := none
  dish_role : Option String := none
  serves : Option String := none
  prep_time : Option String := none
  cook_time : Option String := none
  total_time : Option String := none
  calories : Option String := none
  protein : Option String := none
  carbs : Option String := none
  fat : Option String := none
  description : Option String := none
  nutrition_full : Option String := none
  dietary_info : List String := []
  ingredients : List String := []
  instructions : List String := []
  tips : List String := []
  sub_recipes : List SubRecipe := []
  is_complete : Option Bool := none
  is_continuation : Option Bool := none
  note : Option String := none
  source_image : Option String := none
  source_images : Option (List String) := none
  merged_from_sources : Option (List String) := none
  chapter_reassigned : Bool := false
  preprocessed : Bool := false
deriving DecidableEq

/-- A chapter dictionary. -/
structure Chapter where
  chapter_number : Option String := none
  chapter_title : Option String := none
  recipe_list : List String := []
  notes : Option String := none
  source_image : Option String := none
  page_numbers : List Int := []
deriving DecidableEq

/-- An `upsert_log` entry (timestamp omitted, see file header). -/
structure UpsertLogEntry where
  action : String
  recipe_name : String
  source_image : Option String := none
  previous_source : Option String := none
  note : Option String := none
deriving DecidableEq

/-- A `deletion_log` entry (timestamp omitted). -/
structure DeletionLogEntry where
  deleted : List String
deriving DecidableEq

/-- A value of `index["by_name"]`. -/
structure ByNameEntry where
  recipe_index : Nat
  chapter : Option String
  serves : Option String
  dietary_info : List String
  calories : Option String
  protein : Option String
  prep_time : Option String
deriving DecidableEq

/-- An entry of `index["unmatched"]`. -/
structure UnmatchedEntry where
  name : String
  chapter : String
  note : String
deriving DecidableEq

/-- The index built by `build_recipe_index`; the three `by_macros` sublists are
    flattened into fields. -/
structure RecipeIndex where
  by_name : List (String × ByNameEntry) := []
  by_chapter : List (String × List String) := []
  all_recipes : List String := []
  unmatched : List UnmatchedEntry := []
  by_dietary : List (String × List String) := []
  high_protein : List String := []
  low_carb : List String := []
  low_calorie : List String := []
deriving DecidableEq

/-- The two shapes the `index` key of a catalog takes in the source: the full
    structure produced by `build_recipe_index`, and the simple
    `{"recipes_by_name": ..., "total_recipes": ...}` dictionary written by the
    `--delete` handler in `main`. -/
inductive IndexVal where
  | full (idx : RecipeIndex)
  | simple (recipes_by_name : List (String × Nat)) (total_recipes : Nat)
deriving DecidableEq

/-- A catalog dictionary (metadata block omitted: its fields are write-only
    counters and timestamps no claim mentions). -/
structure Catalog where
  recipes : List Recipe := []
  chapters : List Chapter := []
  upsert_log : List UpsertLogEntry := []
  deletion_log : List DeletionLogEntry := []
  index : Option IndexVal := none
deriving DecidableEq

/-! ### Insertion-ordered dictionaries

Python dicts keep insertion order; assigning to an existing key updates the
value in place, assigning to a fresh key appends. -/

/-- `d[k] = v` on an insertion-ordered association list. -/
def assocSet {α : Type} (d : List (String × α)) (k : String) (v : α) :
    List (String × α) :=
  if (d.lookup k).isSome then d.map (fun p => if p.1 == k then (k, v) else p)
  else d ++ [(k, v)]

/-- `d.setdefault(k, []).append(v)` as used for the grouping indexes. -/
def multiAdd (d : List (String × List String)) (k : String) (v : String) :
    List (String × List String) :=
  if (d.lookup k).isSome then
    d.map (fun p => if p.1 == k then (p.1, p.2 ++ [v]) else p)
  else d ++ [(k, [v])]

/-! ### `merge_recipes` (recipe_cataloger.py:700) -/

/-- Scalar-field rule of `merge_recipes`: take `recipe2`'s value when it is
    truthy and `recipe1`'s is falsy. -/
def mergeScalar (v1 v2 : Option String) : Option String :=
  if strTruthy v2 && !(strTruthy v1) then v2 else v1

/-- `merge_recipes`: start from a copy of `recipe1`, extend the list fields and
    `sub_recipes`, fill falsy scalar fields from `recipe2`, take completeness
    from `recipe2` (default `True`), clear the continuation mark, and track
    source images. -/
def mergeRecipes (r1 r2 : Recipe) : Recipe :=
  { r1 with
    ingredients := r1.ingredients ++ r2.ingredients
    instructions := r1.instructions ++ r2.instructions
    tips := r1.tips ++ r2.tips
    dietary_info := r1.dietary_info ++ r2.dietary_info
    sub_recipes := r1.sub_recipes ++ r2.sub_recipes
    serves := mergeScalar r1.serves r2.serves
    prep_time := mergeScalar r1.prep_time r2.prep_time
    cook_time := mergeScalar r1.cook_time r2.cook_time
    total_time := mergeScalar r1.total_time r2.total_time
    calories := mergeScalar r1.calories r2.calories
    protein := mergeScalar r1.protein r2.protein
    carbs := mergeScalar r1.carbs r2.carbs
    fat := mergeScalar r1.fat r2.fat
    description := mergeScalar r1.description r2.description
    nutrition_full := mergeScalar r1.nutrition_full r2.nutrition_full
    is_complete := some (r2.is_complete.getD true)
    is_continuation := some false
    source_images :=
      some ((r1.source_images.getD [r1.source_image.getD "unknown"]) ++
        (if strTruthy r2.source_image then [r2.source_image.getD ""] else [])) }

/-! ### `upsert_recipes` (recipe_cataloger.py:881) -/

/-- The four merge conditions of the matched case of `upsert_recipes`
    (lines 949-961), in source order; otherwise the match is replaced. -/
def shouldMerge (oldIng oldIns newIng newIns : Nat) : Bool :=
  if Nat.blt 0 oldIng && Nat.blt oldIns 3 && Nat.blt oldIns newIns then true
  else if Nat.blt 0 newIng && Nat.blt newIns 3 && Nat.blt newIns oldIns then true
  else if Nat.blt 0 oldIns && Nat.blt 0 newIns && Nat.blt 0 oldIng && newIng == 0 then true
  else if Nat.blt 0 newIns && Nat.blt 0 oldIns && Nat.blt 0 newIng && oldIng == 0 then true
  else false

/-- `recipes[i].get("name", "")`, with `""` for an out-of-range index
    (the source never indexes out of range here). -/
def recipeNameAt (recipes : List Recipe) (i : Nat) : String :=
  ((recipes[i]?).map Recipe.name).getD ""

/-- The `existing_recipes` lookup built at the top of `upsert_recipes`:
    normalized name of every named recipe, mapped to its position (a later
    recipe with the same normalized name overwrites the value in place). -/
def buildExistingDict (recipes : List Recipe) : List (String × Nat) :=
  recipes.enum.foldl
    (fun d p => if p.2.name == "" then d
      else assocSet d (normalizeRecipeName p.2.name) p.1) []

/-- Mutable state threaded through the per-recipe loop of `upsert_recipes`. -/
structure UpsertState where
  recipes : List Recipe
  dict : List (String × Nat)
  log : List UpsertLogEntry
  added : Nat
  updated : Nat
  merged : Nat

/-- Matching step of `upsert_recipes`: exact normalized lookup first, then the
    first dictionary entry whose current recipe name fuzzy-matches. -/
def findMatchIdx (st : UpsertState) (name : String) : Option Nat :=
  match st.dict.lookup (normalizeRecipeName name) with
  | some i => some i
  | none =>
    (st.dict.find? (fun p => fuzzyMatchNames name (recipeNameAt st.recipes p.2))).map
      (fun p => p.2)

/-- One iteration of the `for recipe in new_recipes` loop of `upsert_recipes`:
    skip unnamed recipes, else merge / replace the match or append as new, with
    one audit-log entry per action. -/
def upsertStep (sourceImage : Option String) (st : UpsertState) (recipe : Recipe) :
    UpsertState :=
  if recipe.name == "" then st
  else
    match findMatchIdx st recipe.name with
    | some idx =>
      let old := (st.recipes[idx]?).getD {}
      let oi := old.ingredients.length
      let oin := old.instructions.length
      let ni := recipe.ingredients.length
      let nin := recipe.instructions.length
      let logSrc := if strTruthy sourceImage then sourceImage else recipe.source_image
      if shouldMerge oi oin ni nin then
        let m0 := mergeRecipes old recipe
        let srcs := [old.source_image.getD "unknown",
                     recipe.source_image.getD (pyOr sourceImage "unknown")]
        let m1 := { m0 with merged_from_sources := some srcs }
        let mergeNote := "Merged: old had " ++ toString oi ++ " ing/" ++ toString oin ++
          " steps, new had " ++ toString ni ++ " ing/" ++ toString nin ++ " steps"
        let entry : UpsertLogEntry :=
          { action := "merged", recipe_name := recipe.name, source_image := logSrc,
            previous_source := old.source_image, note := some mergeNote }
        { st with
          recipes := st.recipes.set idx m1,
          merged := st.merged + 1,
          log := st.log ++ [entry] }
      else
        let entry : UpsertLogEntry :=
          { action := "updated", recipe_name := recipe.name, source_image := logSrc,
            previous_source := old.source_image }
        { st with
          recipes := st.recipes.set idx recipe,
          updated := st.updated + 1,
          log := st.log ++ [entry] }
    | none =>
      let entry : UpsertLogEntry :=
        { action := "added", recipe_name := recipe.name,
          source_image := if strTruthy sourceImage then sourceImage else recipe.source_image }
      { st with
        recipes := st.recipes ++ [recipe],
        dict := assocSet st.dict (normalizeRecipeName recipe.name) st.recipes.length,
        added := st.added + 1,
        log := st.log ++ [entry] }

/-- The `existing_chapters` lookup (lowercased titles of titled chapters). -/
def buildChapterDict (chapters : List Chapter) : List (String × Nat) :=
  chapters.enum.foldl
    (fun d p =>
      let title := p.2.chapter_title.getD ""
      if title == "" then d else assocSet d (pyLower title) p.1) []

/-- Chapter half of `upsert_recipes` (lines 1007-1025): replace a chapter whose
    lowercased title already occurs (position looked up in the dictionary built
    once at the start), append otherwise; untitled chapters are skipped. -/
def upsertChapters (chapters newChapters : List Chapter) : List Chapter :=
  let existing := buildChapterDict chapters
  newChapters.foldl
    (fun cur ch =>
      let title := ch.chapter_title.getD ""
      if title == "" then cur
      else
        match existing.lookup (pyLower title) with
        | some idx => cur.set idx ch
        | none => cur ++ [ch])
    chapters

/-! ### `reassign_unknown_chapters` (recipe_cataloger.py:838) -/

/-- The name → chapter lookup built from every chapter's advertised list. -/
def buildChapterLookup (chapters : List Chapter) :
    List (String × (String × Option String)) :=
  chapters.foldl
    (fun d ch =>
      ch.recipe_list.foldl
        (fun d listed =>
          assocSet d (normalizeRecipeName listed)
            (ch.chapter_title.getD "Unknown", ch.chapter_number))
        d)
    []

/-- Per-recipe step of `reassign_unknown_chapters`: a recipe with a falsy or
    `"unknown"` chapter takes the chapter of the first advertised (normalized)
    name it fuzzy-matches. -/
def reassignRecipe (lookup : List (String × (String × Option String)))
    (r : Recipe) : Recipe :=
  let cc := r.chapter.getD ""
  if cc == "" || pyLower cc == "unknown" then
    match lookup.find? (fun p => fuzzyMatchNames r.name p.1) with
    | some p =>
      { r with chapter := some p.2.1
               chapter_number := if strTruthy p.2.2 then p.2.2 else r.chapter_number
               chapter_reassigned := true }
    | none => r
  else r

/-- `reassign_unknown_chapters` on a catalog (the returned reassignment count
    only feeds a progress print and is not modelled). -/
def reassignUnknownChapters (c : Catalog) : Catalog :=
  let lookup := buildChapterLookup c.chapters
  { c with recipes := c.recipes.map (reassignRecipe lookup) }

/-! ### `build_recipe_index` (recipe_cataloger.py:1043) -/

/-- `int(re.search(r'\d+', s).group())`: the first maximal digit run of `s`,
    or `none` when `re.search` finds nothing (the `AttributeError` the source
    then swallows with `except: pass`). -/
def firstNat (s : String) : Option Nat :=
  let l := s.data.dropWhile (fun c => !c.isDigit)
  let ds := l.takeWhile (fun c => c.isDigit)
  if ds.isEmpty then none
  else some (ds.foldl (fun n c => n * 10 + (c.toNat - 48)) 0)

/-- `diet.lower().replace("-", "_").replace(" ", "_")`. -/
def dietKey (d : String) : String :=
  String.mk ((pyLower d).data.map (fun c => if c == '-' || c == ' ' then '_' else c))

/-- The macro-band update for one recipe: append the name to the band when the
    field is truthy, its first integer exists, and the bound holds (`pass`
    otherwise, as in the three `try` blocks of the source). -/
def macroBand (field : Option String) (keep : Nat → Bool) (band : List String)
    (name : String) : List String :=
  match field with
  | none => band
  | some s =>
    if s == "" then band
    else
      match firstNat s with
      | some v => if keep v then band ++ [name] else band
      | none => band

/-- First half of `build_recipe_index`: fold the named recipes into `by_name`,
    `all_recipes`, `by_chapter`, `by_dietary` and the three macro bands. -/
def indexRecipesPass (recipes : List Recipe) : RecipeIndex :=
  recipes.enum.foldl
    (fun (ix : RecipeIndex) p =>
      let r := p.2
      if r.name == "" then ix
      else
        let ix := { ix with
          by_name := assocSet ix.by_name r.name
            { recipe_index := p.1, chapter := r.chapter, serves := r.serves,
              dietary_info := r.dietary_info, calories := r.calories,
              protein := r.protein, prep_time := r.prep_time }
          all_recipes := ix.all_recipes ++ [r.name]
          by_chapter := multiAdd ix.by_chapter (r.chapter.getD "Unknown") r.name }
        let ix := r.dietary_info.foldl
          (fun ix d => { ix with by_dietary := multiAdd ix.by_dietary (dietKey d) r.name }) ix
        { ix with
          high_protein := macroBand r.protein (fun v => Nat.blt 30 v) ix.high_protein r.name
          low_carb := macroBand r.carbs (fun v => Nat.blt v 20) ix.low_carb r.name
          low_calorie := macroBand r.calories (fun v => Nat.blt v 400) ix.low_calorie r.name })
    {}

/-- Second half of `build_recipe_index`: scan every chapter's advertised list,
    and record each advertised name (once per normalized form) that
    fuzzy-matches no extracted recipe and is not already in `all_recipes`. -/
def indexUnmatchedPass (c : Catalog) (ix : RecipeIndex) : RecipeIndex :=
  (c.chapters.foldl
    (fun (acc : RecipeIndex × List String) ch =>
      ch.recipe_list.foldl
        (fun (acc : RecipeIndex × List String) listed =>
          let normalized := normalizeRecipeName listed
          if acc.2.contains normalized then acc
          else if c.recipes.any (fun r => fuzzyMatchNames listed r.name) then acc
          else if acc.1.all_recipes.contains listed then acc
          else
            ({ acc.1 with unmatched := acc.1.unmatched ++
                [{ name := listed, chapter := ch.chapter_title.getD "Unknown",
                   note := "Listed in chapter but not yet extracted" }] },
             acc.2 ++ [normalized]))
        acc)
    (ix, [])).1

/-- `build_recipe_index`: reads only the `recipes` and `chapters` keys of the
    catalog. -/
def buildRecipeIndex (c : Catalog) : RecipeIndex :=
  indexUnmatchedPass c (indexRecipesPass c.recipes)

/-- `upsert_recipes`: per-recipe upsert loop, chapter upsert, unknown-chapter
    reassignment, then an unconditional full index rebuild.  Returns
    `(catalog, added, updated, merged)`.  The trailing metadata-counter updates
    are omitted with the metadata block. -/
def upsertRecipes (catalog : Catalog) (newRecipes : List Recipe)
    (newChapters : List Chapter) (sourceImage : Option String) :
    Catalog × Nat × Nat × Nat :=
  let st0 : UpsertState :=
    { recipes := catalog.recipes, dict := buildExistingDict catalog.recipes,
      log := catalog.upsert_log, added := 0, updated := 0, merged := 0 }
  let st := newRecipes.foldl (upsertStep sourceImage) st0
  let c1 : Catalog := { catalog with
    recipes := st.recipes
    chapters := upsertChapters catalog.chapters newChapters
    upsert_log := st.log }
  let c2 := reassignUnknownChapters c1
  let c3 := { c2 with index := some (.full (buildRecipeIndex c2)) }
  (c3, st.added, st.updated, st.merged)

/-! ### The `--delete` handler of `main` (recipe_cataloger.py:2224) -/

/-- Insert into a descending list of indices. -/
def insertDesc (x : Nat) : List Nat → List Nat
  | [] => [x]
  | y :: ys => if y ≤ x then x :: y :: ys else y :: insertDesc x ys

/-- `sorted(indices, reverse=True)` (duplicates kept, as in the source). -/
def sortDesc (l : List Nat) : List Nat := l.foldr insertDesc []

/-- The recipe-deletion command: `none` models `sys.exit(1)` on any ordinal
    outside `1..total`.  Otherwise delete each (0-based, descending) index,
    append a deletion-log entry, and — when an index key exists — overwrite it
    with the simple `{"recipes_by_name", "total_recipes"}` rebuild of `main`.
    The confirmation prompt is taken as answered `y`. -/
def deleteRecipesCmd (catalog : Catalog) (nums : List Nat) : Option Catalog :=
  let total := catalog.recipes.length
  if nums.any (fun n => n < 1 || total < n) then none
  else
    let indices := sortDesc (nums.map (fun n => n - 1))
    let res := indices.foldl
      (fun (acc : List Recipe × List String) idx =>
        (acc.1.eraseIdx idx,
         acc.2 ++ [((acc.1[idx]?).map Recipe.name).getD "Unknown"]))
      (catalog.recipes, [])
    some { catalog with
      recipes := res.1
      deletion_log := catalog.deletion_log ++ [{ deleted := res.2 }]
      index := match catalog.index with
        | some _ => some (.simple
            ((res.1.enum.foldl (fun d p => assocSet d p.2.name p.1) []))
            res.1.length)
        | none => none }

/-! ### `parse_json_response` (backend/llm.py:130) and `classify_page`
(recipe_cataloger.py:241)

`json.loads` is an external library call; it enters the embedding as the
`decode` parameter of `parseJsonResponse`.  The code-fence stripping around it
is repository code and is embedded. -/

/-- Split at the first occurrence of `sep`: `some (before, after)` when `sep`
    occurs, `none` otherwise (`sep` is never empty at the call sites). -/
def splitFirst (sep : List Char) : List Char → Option (List Char × List Char)
  | [] => if sep.isEmpty then some ([], []) else none
  | c :: t =>
    if listIsPref sep (c :: t) then some ([], (c :: t).drop sep.length)
    else
      match splitFirst sep t with
      | some pr => some (c :: pr.1, pr.2)
      | none => none

/-- The code-fence stripping of `parse_json_response`: on a stripped reply,
    `split("```json")[1].split("```")[0]` when a ```json fence occurs, else
    `split("```")[1]` when any fence occurs (taking everything up to the next
    fence, as Python's split does), else the reply itself. -/
def stripFences (resp : String) : String :=
  let js := pyStrip resp
  if listHasSub ("```json".data) js.data then
    match splitFirst ("```json".data) js.data with
    | some pr =>
      match splitFirst ("```".data) pr.2 with
      | some pr2 => String.mk pr2.1
      | none => String.mk pr.2
    | none => js
  else if listHasSub ("```".data) js.data then
    match splitFirst ("```".data) js.data with
    | some pr =>
      match splitFirst ("```".data) pr.2 with
      | some pr2 => String.mk pr2.1
      | none => String.mk pr.2
    | none => js
  else js

/-- `parse_json_response`: `None` on an empty reply, else strip fences, strip
    whitespace and decode. -/
def parseJsonResponse {α : Type} (decode : String → Option α) (response : String) :
    Option α :=
  if response == "" then none
  else decode (pyStrip (stripFences response))

/-- The classification dictionary returned by `classify_page`, with the
    defaults of recipe_cataloger.py:291-299. -/
structure Classification where
  type : String := "other"
  has_recipe_start : Bool := false
  has_recipe_continuation : Bool := false
  recipe_names_visible : List String := []
  page_numbers : List Int := []
  total_pages : Option Nat := none
  confidence : String := "low"
deriving DecidableEq

/-- A parsed classification reply: the keys present in the decoded JSON
    object (schema per the classification prompt). -/
structure ClassifyPayload where
  type : Option String := none
  has_recipe_start : Option Bool := none
  has_recipe_continuation : Option Bool := none
  recipe_names_visible : Option (List String) := none
  page_numbers : Option (List Int) := none
  total_pages : Option (Option Nat) := none
  confidence : Option String := none
deriving DecidableEq

/-- `result.update(parsed)`: keys present in the payload overwrite the
    defaults. -/
def applyClassifyUpdate (base : Classification) (p : ClassifyPayload) :
    Classification :=
  { type := p.type.getD base.type
    has_recipe_start := p.has_recipe_start.getD base.has_recipe_start
    has_recipe_continuation := p.has_recipe_continuation.getD base.has_recipe_continuation
    recipe_names_visible := p.recipe_names_visible.getD base.recipe_names_visible
    page_numbers := p.page_numbers.getD base.page_numbers
    total_pages := p.total_pages.getD base.total_pages
    confidence := p.confidence.getD base.confidence }

/-- `classify_page` downstream of the model call: start from the defaults;
    on a truthy reply, merge the parsed payload, or, when parsing fails, fall
    back to scanning the lowercased reply for the words chapter / recipe /
    article / photo (in that order). -/
def classifyPage (decode : String → Option ClassifyPayload)
    (response : Option String) : Classification :=
  let result : Classification := {}
  match response with
  | none => result
  | some resp =>
    if resp == "" then result
    else
      match parseJsonResponse decode resp with
      | some p => applyClassifyUpdate result p
      | none =>
        let rl := pyLower resp
        if listHasSub ("chapter".data) rl.data then { result with type := "chapter" }
        else if listHasSub ("recipe".data) rl.data then { result with type := "recipe" }
        else if listHasSub ("article".data) rl.data then { result with type := "article" }
        else if listHasSub ("photo".data) rl.data then { result with type := "photo" }
        else result

/-! ### The model gateway (`backend/llm.py`) and `analyze_image`
(recipe_cataloger.py:36)

The `requests` call is the oracle: `HttpResult` is its outcome as the code
observes it.  `raise_for_status` raises exactly for statuses in `[400, 600)`;
`response.json()` raising (invalid body) is the `none` body. -/

/-- Outcome of one `requests.post` as seen by the caller. -/
inductive HttpResult (β : Type) where
  | connError
  | exn
  | ok (status : Nat) (jsonBody : Option β)
deriving DecidableEq

/-- The decoded body of an Ollama generate reply (`response` key). -/
structure OllamaJson where
  responseText : Option String := none
deriving DecidableEq

/-- One element of a Claude reply's `content` array (`text` key). -/
structure ClaudeContentItem where
  text : Option String := none
deriving DecidableEq

/-- The decoded body of a Claude messages reply (`content` key; absent key
    hits the `[{}]` default, an empty array makes `[0]` raise). -/
structure ClaudeJson where
  content : Option (List ClaudeContentItem) := none
deriving DecidableEq

/-- `query_ollama`: ConnectionError and any other exception (including
    `raise_for_status` on a 4xx/5xx and an invalid JSON body) are caught and
    become `None`; otherwise the reply's `response` field (default `""`). -/
def queryOllama (outcome : HttpResult OllamaJson) : Option String :=
  match outcome with
  | .connError => none
  | .exn => none
  | .ok status body =>
    if 400 ≤ status ∧ status < 600 then none
    else
      match body with
      | none => none
      | some j => some (j.responseText.getD "")

/-- `query_claude`: missing key or any exception yields `None`; a non-200
    status is reported and yields `None`; else
    `result.get("content", [{}])[0].get("text", "")`, where an empty `content`
    array raises (caught, `None`). -/
def queryClaude (apiKey : Option String) (outcome : HttpResult ClaudeJson) :
    Option String :=
  if !(strTruthy apiKey) then none
  else
    match outcome with
    | .connError => none
    | .exn => none
    | .ok status body =>
      if status ≠ 200 then none
      else
        match body with
        | none => none
        | some j =>
          match j.content with
          | none => some ""
          | some [] => none
          | some (c :: _) => some (c.text.getD "")

/-- The environment `analyze_image` runs in: model routing, key, the size of
    the image file, the configured backup model, whether base64 encoding
    succeeds, and the HTTP oracles of the two backends. -/
structure AnalyzeEnv where
  isClaude : Bool
  apiKey : Option String := none
  fileSize : Nat := 0
  backupModel : Option String := none
  encodeOk : Bool := true
  ollamaOutcome : HttpResult OllamaJson := .exn
  claudeOutcome : HttpResult ClaudeJson := .exn

/-- `analyze_image`: route on the model name; for Claude, require a key,
    estimate the base64 size as `int(file_size * 4 / 3)` and compare with the
    5 MB cap — oversize reroutes to the backup model when one is configured
    and is reported (`None`) otherwise. -/
def analyzeImage (env : AnalyzeEnv) : Option String :=
  if env.isClaude then
    if !(strTruthy env.apiKey) then none
    else if 5 * 1024 * 1024 ≤ env.fileSize * 4 / 3 then
      if strTruthy env.backupModel then
        if env.encodeOk then queryOllama env.ollamaOutcome else none
      else none
    else
      if env.encodeOk then queryClaude env.apiKey env.claudeOutcome else none
  else
    if env.encodeOk then queryOllama env.ollamaOutcome else none

/-! ### `extract_recipes` (recipe_cataloger.py:357)

The model's reply to each prompt attempt, after `parse_json_response`, is an
oracle value: `none` covers both a failed call and an unparseable reply. -/

/-- A parsed extraction reply. -/
structure ExtractPayload where
  recipes : List Recipe := []
  has_continuation : Bool := false
deriving DecidableEq

/-- The `attempt` field of the returned result: `attempt + 1` for a loop
    attempt, or the string `"preprocessed"` for the enhanced-image retry. -/
inductive AttemptTag where
  | numbered (n : Nat)
  | enhanced
deriving DecidableEq

/-- `best_result`: complete recipes, the pending fragment (`partial_recipe` in
    the source) and the attempt tag. -/
structure ExtractResult where
  recipes : List Recipe := []
  leftover : Option Recipe := none
  attemptTag : Option AttemptTag := none
deriving DecidableEq

/-- The chapter tagging applied to every extracted recipe when a chapter
    context is present (`recipe["chapter"] = current_chapter.get(...)`). -/
def tagChapter (currentChapter : Option Chapter) (r : Recipe) : Recipe :=
  match currentChapter with
  | some ch => { r with chapter := ch.chapter_title, chapter_number := ch.chapter_number }
  | none => r

/-- The per-attempt recipe-processing loop of `extract_recipes` (lines
    566-593): tag each recipe with the chapter, merge continuations into the
    pending recipe from the PREVIOUS page, keep an orphan continuation as a
    standalone recipe with a note, and split into complete recipes and the
    (last) partial. -/
def processRecipes (currentChapter : Option Chapter) (pending : Option Recipe)
    (recipes : List Recipe) : List Recipe × Option Recipe :=
  recipes.foldl
    (fun (acc : List Recipe × Option Recipe) r0 =>
      let r := tagChapter currentChapter r0
      if r.is_continuation.getD false then
        match pending with
        | some p =>
          let m := mergeRecipes p r
          if r.is_complete.getD true then (acc.1 ++ [m], acc.2) else (acc.1, some m)
        | none =>
          let r2 := { r with
            note := some "Detected as continuation but no previous page context",
            is_continuation := some false }
          if r2.is_complete.getD true then (acc.1 ++ [r2], acc.2) else (acc.1, some r2)
      else if r.is_complete.getD true then (acc.1 ++ [r], acc.2)
      else (acc.1, some r))
    ([], none)

/-- The early-return test of `extract_recipes` (lines 604-618): with a known
    expected count, stop once complete + partial reaches it; otherwise stop
    only once at least 3 COMPLETE recipes were found. -/
def stopCheck (expected : Nat) (complete : List Recipe) (leftover : Option Recipe) :
    Bool :=
  if Nat.blt 0 expected then
    Nat.ble expected (complete.length + (if leftover.isSome then 1 else 0))
  else Nat.ble 3 complete.length

/-- The attempt loop of `extract_recipes`: one oracle entry per prompt
    attempt; an attempt is reprocessed only when it parsed and its raw recipe
    count beats the best's complete count (or the best is empty); the best is
    overwritten when the attempt produced a complete recipe or a partial or is
    the first attempt.  Returns the best result and the number of attempts
    consumed. -/
def extractLoop (cc : Option Chapter) (pending : Option Recipe) (expected : Nat) :
    List (Option ExtractPayload) → Nat → ExtractResult → ExtractResult × Nat
  | [], used, best => (best, used)
  | o :: rest, used, best =>
    match o with
    | none => extractLoop cc pending expected rest (used + 1) best
    | some payload =>
      if Nat.blt best.recipes.length payload.recipes.length || best.recipes.length == 0 then
        let pr := processRecipes cc pending payload.recipes
        let best2 :=
          if Nat.blt 0 pr.1.length || pr.2.isSome || used == 0 then
            ({ recipes := pr.1, leftover := pr.2,
               attemptTag := some (.numbered (used + 1)) } : ExtractResult)
          else best
        if stopCheck expected pr.1 pr.2 then (best2, used + 1)
        else extractLoop cc pending expected rest (used + 1) best2
      else extractLoop cc pending expected rest (used + 1) best

/-- `extract_recipes`: at most `min (max_retries + 1) 3` prompt attempts (the
    source slices a 3-element prompt list with `[:max_retries + 1]`),
    followed, when no recipe was found and PIL is available and preprocessing
    produced an enhanced copy, by one extra attempt against that copy whose
    non-empty parsed recipes replace the result wholesale. -/
def extractRecipes (cc : Option Chapter) (pending : Option Recipe)
    (maxRetries : Nat) (cls : Option Classification)
    (oracle : List (Option ExtractPayload)) (pilAvailable preprocSuccess : Bool)
    (preprocParsed : Option ExtractPayload) : ExtractResult × Nat :=
  let expected := match cls with
    | some cl => cl.recipe_names_visible.length
    | none => 0
  let run := extractLoop cc pending expected (oracle.take (min (maxRetries + 1) 3)) 0 {}
  let best := run.1
  let best :=
    if best.recipes.isEmpty && pilAvailable then
      if preprocSuccess then
        match preprocParsed with
        | some payload =>
          if payload.recipes.isEmpty then best
          else
            { recipes := payload.recipes.map
                (fun r => { tagChapter cc r with preprocessed := true }),
              leftover := none, attemptTag := some .enhanced }
        | none => best
      else best
    else best
  (best, run.2)

/-! ### `extract_partial_recipe` (recipe_cataloger.py:736) -/

/-- A parsed continuation reply. -/
structure PartialPayload where
  additional_ingredients : List String := []
  additional_instructions : List String := []
  additional_tips : List String := []
  nutrition_per_serving : Option String := none
  is_complete : Option Bool := none
deriving DecidableEq

/-- `extract_partial_recipe`: extend the pending recipe with the parsed
    continuation content (unchanged when the call or the parse failed). -/
def extractPartialRecipe (parsed : Option PartialPayload) (pending : Recipe) :
    Recipe :=
  match parsed with
  | none => pending
  | some p =>
    let r := pending
    let r := if p.additional_ingredients.isEmpty then r
      else { r with ingredients := r.ingredients ++ p.additional_ingredients }
    let r := if p.additional_instructions.isEmpty then r
      else { r with instructions := r.instructions ++ p.additional_instructions }
    let r := if p.additional_tips.isEmpty then r
      else { r with tips := r.tips ++ p.additional_tips }
    let r := match p.nutrition_per_serving with
      | some n => if n == "" then r else { r with nutrition_full := some n }
      | none => r
    { r with is_complete := some (p.is_complete.getD true) }

/-! ### The page-processing pipelines (`process_cookbook_folder`,
recipe_cataloger.py:1316, and `process_multiple_files`,
recipe_cataloger.py:1776)

One `PageOracle` bundles the model-dependent outcomes for one page: the final
classification dictionary, the chapter-extraction payload, the per-attempt
extraction replies (as a function of the pending recipe the prompt mentions),
the preprocessing configuration and the continuation-extraction reply. -/

/-- The model-side outcomes for one page of the ordered sequence. -/
structure PageOracle where
  classification : Classification := {}
  chapterInfo : Chapter := {}
  attempts : Option Recipe → List (Option ExtractPayload) := fun _ => []
  pilAvailable : Bool := false
  preprocSuccess : Bool := false
  preprocParsed : Option Recipe → Option ExtractPayload := fun _ => none
  partialParsed : Recipe → Option PartialPayload := fun _ => none
  fileName : String := ""

/-- Loop state of `process_cookbook_folder`. -/
structure FolderState where
  chapters : List Chapter := []
  recipes : List Recipe := []
  currentChapter : Option Chapter := none
  pending : Option Recipe := none

/-- One iteration of the folder loop (lines 1396-1478): chapter pages extend
    the chapter list and set the context; recipe pages run `extract_recipes`,
    append the complete recipes, and manage the pending recipe — a "partial"
    that has name, ingredients and instructions and was an orphan continuation
    is saved as complete; otherwise it becomes the pending recipe; with no new
    partial, the pending is cleared only when recipes were extracted. -/
def folderStep (maxRetries : Nat) (st : FolderState) (page : PageOracle) :
    FolderState :=
  let cl := page.classification
  if cl.type == "chapter" then
    let ci := { page.chapterInfo with
      source_image := some page.fileName, page_numbers := cl.page_numbers }
    { st with chapters := st.chapters ++ [ci], currentChapter := some ci }
  else if cl.type == "recipe" || cl.type == "recipe_partial" then
    let result := (extractRecipes st.currentChapter st.pending maxRetries (some cl)
      (page.attempts st.pending) page.pilAvailable page.preprocSuccess
      (page.preprocParsed st.pending)).1
    let withSrc := result.recipes.map (fun r => { r with source_image := some page.fileName })
    let st1 := { st with recipes := st.recipes ++ withSrc }
    match result.leftover with
    | some np0 =>
      let np := { np0 with source_image := some page.fileName }
      if !(np.name == "") && !np.ingredients.isEmpty && !np.instructions.isEmpty then
        if np.is_continuation.getD false && st.pending.isNone then
          { st1 with
            recipes := st1.recipes ++ [{ np with
              note := some "Was marked as continuation but no previous context - saved as complete",
              is_continuation := some false, is_complete := some true }],
            pending := none }
        else { st1 with pending := some np }
      else { st1 with pending := some np }
    | none =>
      if st.pending.isSome && !result.recipes.isEmpty then { st1 with pending := none }
      else st1
  else st

/-- The folder loop over the ordered page sequence. -/
def runFolderLoop (maxRetries : Nat) (pages : List PageOracle) : FolderState :=
  pages.foldl (folderStep maxRetries) {}

/-- `process_cookbook_folder` output (lines 1480-1488): a still-pending recipe
    is force-finalized — marked incomplete with a truncation note and appended
    — and the index is built.  (File discovery, progress printing, metadata
    counters and the JSON dump are I/O and are not modelled.) -/
def processCookbookFolder (maxRetries : Nat) (pages : List PageOracle) : Catalog :=
  let st := runFolderLoop maxRetries pages
  let recipes := match st.pending with
    | some p => st.recipes ++ [{ p with
        is_complete := some false,
        note := some "Recipe may be incomplete - continued beyond processed pages" }]
    | none => st.recipes
  let c : Catalog := { recipes := recipes, chapters := st.chapters }
  { c with index := some (.full (buildRecipeIndex c)) }

/-- Loop state of `process_multiple_files`. -/
structure MultiState where
  chapters : List Chapter := []
  recipes : List Recipe := []
  currentChapter : Option Chapter := none
  pending : Option Recipe := none

/-- One iteration of the multi-file loop (lines 1838-1969). -/
def multiStep (maxRetries : Nat) (st : MultiState) (page : PageOracle) : MultiState :=
  let cl := page.classification
  if cl.type == "chapter" then
    { st with
      chapters := st.chapters ++ [page.chapterInfo],
      currentChapter := some page.chapterInfo }
  else if cl.type == "recipe" || cl.type == "recipe_partial" then
    let hasCont := cl.has_recipe_continuation
    let hasNew := cl.has_recipe_start || !cl.recipe_names_visible.isEmpty
    if (cl.type == "recipe_partial" && st.pending.isSome)
        || (hasCont && st.pending.isSome && !hasNew) then
      match st.pending with
      | some p =>
        let completed := extractPartialRecipe (page.partialParsed p) p
        if completed.is_complete.getD true then
          let completed2 := { completed with
            source_image := some page.fileName,
            chapter := match st.currentChapter with
              | some ch => some (ch.chapter_title.getD "")
              | none => completed.chapter }
          { st with recipes := st.recipes ++ [completed2], pending := none }
        else { st with pending := some completed }
      | none => st
    else
      let result := (extractRecipes st.currentChapter st.pending maxRetries (some cl)
        (page.attempts st.pending) page.pilAvailable page.preprocSuccess
        (page.preprocParsed st.pending)).1
      let tagged := result.recipes.map (fun r =>
        { r with
          source_image := some page.fileName,
          chapter := match st.currentChapter with
            | some ch => some (ch.chapter_title.getD "")
            | none => r.chapter })
      let st1 := { st with recipes := st.recipes ++ tagged }
      match result.leftover with
      | some np0 =>
        let np := { np0 with source_image := some page.fileName }
        if !(np.name == "") && !np.ingredients.isEmpty && !np.instructions.isEmpty then
          let np2 := { np with
            note := if np.is_continuation.getD false && st.pending.isNone then
                some "Was marked as continuation but no previous context"
              else np.note,
            is_complete := some true,
            chapter := match st.currentChapter with
              | some ch => some (ch.chapter_title.getD "")
              | none => np.chapter }
          { st1 with recipes := st1.recipes ++ [np2], pending := none }
        else { st1 with pending := some np }
      | none => { st1 with pending := none }
  else st

/-- The multi-file loop over the ordered file list, starting from an optional
    chapter context. -/
def runMultiLoop (maxRetries : Nat) (chapterContext : Option Chapter)
    (pages : List PageOracle) : MultiState :=
  pages.foldl (multiStep maxRetries) { currentChapter := chapterContext }

/-- `process_multiple_files` output (lines 1971-2005): a final pending recipe
    is saved (marked complete, with a note) ONLY when it has a name, at least
    one ingredient and at least one instruction; otherwise it is dropped with
    a warning print. -/
def processMultipleFiles (maxRetries : Nat) (chapterContext : Option Chapter)
    (pages : List PageOracle) : List Recipe × List Chapter :=
  let st := runMultiLoop maxRetries chapterContext pages
  match st.pending with
  | some p =>
    if !(p.name == "") && !p.ingredients.isEmpty && !p.instructions.isEmpty then
      (st.recipes ++ [{ p with
        note := some "Final partial saved as complete",
        is_complete := some true }], st.chapters)
    else (st.recipes, st.chapters)
  | none => (st.recipes, st.chapters)

/-! ### Verification-level definitions used by the theorems below -/

/-- The merge condition exactly as the spec sentences quoted by C2 state it:
    incoming completes existing, the symmetric case, or one side has
    ingredients only while the other has instructions only. -/
def specMergeCond (oi oin ni nin : Nat) : Prop :=
  (0 < oi ∧ oin < 3 ∧ oin < nin) ∨
  (0 < ni ∧ nin < 3 ∧ nin < oin) ∨
  (0 < oi ∧ oin = 0 ∧ ni = 0 ∧ 0 < nin) ∨
  (oi = 0 ∧ 0 < oin ∧ 0 < ni ∧ nin = 0)

/-- The property every `existing_recipes` entry satisfies: it points at a named
    recipe whose normalized name is the key. -/
def dictEntryOk (recipes : List Recipe) (p : String × Nat) : Prop :=
  ∃ old, recipes[p.2]? = some old ∧ ¬ (old.name = "") ∧
    normalizeRecipeName old.name = p.1

/-- The state `upsert_recipes` starts its per-recipe loop from. -/
def mkInit (c : Catalog) : UpsertState :=
  { recipes := c.recipes, dict := buildExistingDict c.recipes,
    log := c.upsert_log, added := 0, updated := 0, merged := 0 }

/-- The match criterion of `upsert_recipes` against one existing entry name:
    the entry is named and matches the incoming name exactly after
    normalization or fuzzily.  (Verification-level predicate used to state
    claim C1.) -/
def nameMatches (target s : String) : Bool :=
  !(s == "") && (normalizeRecipeName s == normalizeRecipeName target
    || fuzzyMatchNames target s)

/-- The concrete recipe used by the C1 witness. -/
def pancakeR : Recipe := { name := "Pancakes", ingredients := ["x"], instructions := ["y"] }

/-- The property claim C5 asserts of a top-level recipe: its `dish_role` is
    not the `sub_recipe` tag. -/
def noSubRole (r : Recipe) : Prop := ¬ (r.dish_role = some "sub_recipe")

/-- Claim C5 for an extraction result: no complete recipe and no partial
    recipe carries the `sub_recipe` role. -/
def roleOk (res : ExtractResult) : Prop :=
  (∀ r ∈ res.recipes, noSubRole r) ∧ (∀ p, res.leftover = some p → noSubRole p)

/-- A reply whose two recipes are both complete (C9 counterexample). -/
def twoCompletePayload : ExtractPayload :=
  { recipes := [{ name := "A" }, { name := "B" }] }

/-- A reply with three raw recipes, all marked incomplete (C9 counterexample). -/
def threePartialPayload : ExtractPayload :=
  { recipes := [{ name := "C", is_complete := some false },
                { name := "D", is_complete := some false },
                { name := "E", is_complete := some false }] }

/-- An embedded sub-recipe the model reported at top level (C5
    counterexample). -/
def dressingR : Recipe :=
  { name := "Dressing", dish_role := some "sub_recipe",
    ingredients := ["oil"], instructions := ["whisk"] }

/-- A plain main recipe (C5 witness). -/
def mainR : Recipe := { name := "Main Salad" }

/-- A recipe page whose only extraction attempt yields one incomplete recipe
    with a name and ingredients but no instructions (C3). -/
def soupPage : PageOracle :=
  { classification := { type := "recipe" }, fileName := "p1",
    attempts := fun _ =>
      [some { recipes := [{ name := "Soup", ingredients := ["water"],
                            is_complete := some false }] }] }

/-- The pending recipe both pipeline loops carry after `soupPage` (C3). -/
def soupPendF : Recipe :=
  { name := "Soup", ingredients := ["water"], is_complete := some false,
    source_image := some "p1" }

/-! ### Theorems -/

set_option maxRecDepth 8000

/-- C4: at the default threshold 0.85, the fuzzy name matcher matches the pair
    "Cilantro Lime Vinaigrette" / "cilantro-lime vinaigrette"
    (case/punctuation-insensitive) and returns no match for the pair
    "Cilantro Lime Vinaigrette" / "Lime Cilantro Dressing". -/
theorem fuzzy_match_boundary_pairs :
    fuzzyMatchNames "Cilantro Lime Vinaigrette" "cilantro-lime vinaigrette" = true ∧
    fuzzyMatchNames "Cilantro Lime Vinaigrette" "Lime Cilantro Dressing" = false := by
  constructor <;> decide


/-- Characterization of the source's merge decision. -/
theorem shouldMerge_eq_true_iff (oi oin ni nin : Nat) :
    shouldMerge oi oin ni nin = true ↔
      ((0 < oi ∧ oin < 3 ∧ oin < nin) ∨ (0 < ni ∧ nin < 3 ∧ nin < oin) ∨
       (0 < oin ∧ 0 < nin ∧ 0 < oi ∧ ni = 0) ∨
       (0 < nin ∧ 0 < oin ∧ 0 < ni ∧ oi = 0)) := by
  unfold shouldMerge
  repeat' split
  all_goals simp_all [Nat.blt_eq, beq_iff_eq]

/-- C2 counterexample: the recipe "Taco" with 2 ingredients and 5 instructions
    is matched by an incoming "Taco" with no ingredients and 4 instructions;
    none of the three decision rules quoted by the claim holds (the existing
    side has 5 ≥ 3 instructions and is not ingredients-only), yet the code
    merges instead of replacing. -/
theorem upsert_merge_beyond_spec_rules :
    ((upsertRecipes
        { recipes := [{ name := "Taco", ingredients := ["a", "b"],
                        instructions := ["s1", "s2", "s3", "s4", "s5"] }] }
        [{ name := "Taco", instructions := ["t1", "t2", "t3", "t4"] }]
        [] none).1.upsert_log.map UpsertLogEntry.action) = ["merged"] ∧
    ¬ specMergeCond 2 5 0 4 := by
  refine ⟨by decide, ?_⟩
  unfold specMergeCond
  decide

/-- C2 amended: once an incoming named recipe matches an existing one,
    `upsert_recipes` appends exactly one audit entry, whose action is `merged`
    exactly when one of the FOUR source conditions holds — the two completion
    rules of the spec, or: both sides have instructions and exactly one side
    has ingredients — and `updated` (replace) in every other matched case. -/
theorem upsert_matched_action (src : Option String) (st : UpsertState) (r : Recipe)
    (idx : Nat) (hname : ¬ (r.name = ""))
    (hmatch : findMatchIdx st r.name = some idx) :
    ∃ e : UpsertLogEntry,
      (upsertStep src st r).log = st.log ++ [e] ∧
      (e.action = "merged" ∨ e.action = "updated") ∧
      (e.action = "merged" ↔
        (((st.recipes[idx]?).getD {}).ingredients.length > 0 ∧
            ((st.recipes[idx]?).getD {}).instructions.length < 3 ∧
            ((st.recipes[idx]?).getD {}).instructions.length < r.instructions.length) ∨
          (r.ingredients.length > 0 ∧ r.instructions.length < 3 ∧
            r.instructions.length < ((st.recipes[idx]?).getD {}).instructions.length) ∨
          (((st.recipes[idx]?).getD {}).instructions.length > 0 ∧
            r.instructions.length > 0 ∧
            ((st.recipes[idx]?).getD {}).ingredients.length > 0 ∧
            r.ingredients.length = 0) ∨
          (r.instructions.length > 0 ∧
            ((st.recipes[idx]?).getD {}).instructions.length > 0 ∧
            r.ingredients.length > 0 ∧
            ((st.recipes[idx]?).getD {}).ingredients.length = 0)) := by
  have hb : (r.name == "") = false := by
    simp only [beq_eq_false_iff_ne, ne_eq]
    exact hname
  unfold upsertStep
  simp only [hb, Bool.false_eq_true, if_false, hmatch]
  by_cases hm : shouldMerge ((st.recipes[idx]?).getD {}).ingredients.length
      ((st.recipes[idx]?).getD {}).instructions.length
      r.ingredients.length r.instructions.length = true
  · simp only [hm, if_true]
    refine ⟨_, rfl, Or.inl rfl, ?_⟩
    have hd := (shouldMerge_eq_true_iff _ _ _ _).mp hm
    constructor
    · intro _
      omega
    · intro _
      rfl
  · simp only [hm, if_false]
    refine ⟨_, rfl, Or.inr rfl, ?_⟩
    have hnot := hm
    rw [shouldMerge_eq_true_iff] at hnot
    constructor
    · intro habs
      have hlit : ("updated" : String) = "merged" := habs
      simp at hlit
    · intro hcond
      exfalso
      apply hnot
      omega

/-- Witness for the amended C2 theorem at a concrete matched pair. -/
theorem upsert_matched_action_witness :
    ¬ (("Taco" : String) = "") ∧
    findMatchIdx
      { recipes := [{ name := "Taco", ingredients := ["a"], instructions := ["s1"] }],
        dict := buildExistingDict
          [{ name := "Taco", ingredients := ["a"], instructions := ["s1"] }],
        log := [], added := 0, updated := 0, merged := 0 } "Taco" = some 0 ∧
    ∃ e : UpsertLogEntry,
      (upsertStep none
        { recipes := [{ name := "Taco", ingredients := ["a"], instructions := ["s1"] }],
          dict := buildExistingDict
            [{ name := "Taco", ingredients := ["a"], instructions := ["s1"] }],
          log := [], added := 0, updated := 0, merged := 0 }
        { name := "Taco", instructions := ["t1", "t2"] }).log = [] ++ [e] ∧
      (e.action = "merged" ∨ e.action = "updated") := by
  refine ⟨by decide, by decide, ?_⟩
  obtain ⟨e, h1, h2, _⟩ := upsert_matched_action none
    { recipes := [{ name := "Taco", ingredients := ["a"], instructions := ["s1"] }],
      dict := buildExistingDict
        [{ name := "Taco", ingredients := ["a"], instructions := ["s1"] }],
      log := [], added := 0, updated := 0, merged := 0 }
    { name := "Taco", instructions := ["t1", "t2"] } 0 (by decide) (by decide)
  exact ⟨e, h1, h2⟩

/-- Effect of one upsert iteration on the counters, the audit log and the
    recipe count: an unnamed recipe changes nothing, a named recipe bumps
    exactly one counter and appends exactly one log entry, and the recipe list
    grows exactly with the `added` counter. -/
theorem upsertStep_effect (src : Option String) (st : UpsertState) (r : Recipe) :
    (upsertStep src st r).added + (upsertStep src st r).updated
        + (upsertStep src st r).merged
      = st.added + st.updated + st.merged + (if r.name = "" then 0 else 1) ∧
    (upsertStep src st r).log.length
      = st.log.length + (if r.name = "" then 0 else 1) ∧
    (upsertStep src st r).recipes.length + st.added
      = st.recipes.length + (upsertStep src st r).added := by
  unfold upsertStep
  by_cases h : r.name = ""
  · simp [h]
  · have hb : (r.name == "") = false := by simpa using h
    simp only [hb, Bool.false_eq_true, if_false, if_neg h]
    rcases hidx : findMatchIdx st r.name with _ | idx
    · refine ⟨by simp; omega, by simp, by simp; omega⟩
    · by_cases hsm : shouldMerge ((st.recipes[idx]?).getD {}).ingredients.length
          ((st.recipes[idx]?).getD {}).instructions.length
          r.ingredients.length r.instructions.length = true
      · refine ⟨by simp [hsm]; omega, by simp [hsm], by simp [hsm, List.length_set]⟩
      · refine ⟨by simp [hsm]; omega, by simp [hsm], by simp [hsm, List.length_set]⟩

/-- `upsertStep_effect` folded over a whole batch of new recipes. -/
theorem upsertFold_effect (src : Option String) (rs : List Recipe) (st : UpsertState) :
    (rs.foldl (upsertStep src) st).added + (rs.foldl (upsertStep src) st).updated
        + (rs.foldl (upsertStep src) st).merged
      = st.added + st.updated + st.merged + (rs.filter (fun r => !(r.name == ""))).length ∧
    (rs.foldl (upsertStep src) st).log.length
      = st.log.length + (rs.filter (fun r => !(r.name == ""))).length ∧
    (rs.foldl (upsertStep src) st).recipes.length + st.added
      = st.recipes.length + (rs.foldl (upsertStep src) st).added := by
  induction rs generalizing st with
  | nil => simp
  | cons r rs ih =>
    obtain ⟨h1, h2, h3⟩ := upsertStep_effect src st r
    obtain ⟨g1, g2, g3⟩ := ih (upsertStep src st r)
    by_cases h : r.name = ""
    · have hb : (!(r.name == "")) = false := by simp [h]
      simp only [List.foldl_cons, List.filter_cons, hb, Bool.false_eq_true, if_false]
      simp only [h, if_pos] at h1 h2
      refine ⟨by omega, by omega, by omega⟩
    · have hb : (!(r.name == "")) = true := by simp [h]
      simp only [List.foldl_cons, List.filter_cons, hb, if_true, List.length_cons]
      simp only [h, if_neg, if_false] at h1 h2
      refine ⟨by omega, by omega, by omega⟩

/-- C10: in `upsert_recipes`, unnamed new recipes are skipped entirely, and
    each named new recipe yields exactly one action, so
    `added + updated + merged` equals the number of named new recipes, the
    upsert log grows by exactly that amount, and the recipe list grows by
    exactly `added`. -/
theorem upsert_recipes_accounting (catalog : Catalog) (newRecipes : List Recipe)
    (newChapters : List Chapter) (src : Option String) :
    ((upsertRecipes catalog newRecipes newChapters src).2.1
        + (upsertRecipes catalog newRecipes newChapters src).2.2.1
        + (upsertRecipes catalog newRecipes newChapters src).2.2.2
      = (newRecipes.filter (fun r => !(r.name == ""))).length) ∧
    ((upsertRecipes catalog newRecipes newChapters src).1.upsert_log.length
      = catalog.upsert_log.length + (newRecipes.filter (fun r => !(r.name == ""))).length) ∧
    ((upsertRecipes catalog newRecipes newChapters src).1.recipes.length
      = catalog.recipes.length + (upsertRecipes catalog newRecipes newChapters src).2.1) ∧
    (∀ (st : UpsertState) (r : Recipe), r.name = "" → upsertStep src st r = st) := by
  obtain ⟨h1, h2, h3⟩ := upsertFold_effect src newRecipes
    { recipes := catalog.recipes, dict := buildExistingDict catalog.recipes,
      log := catalog.upsert_log, added := 0, updated := 0, merged := 0 }
  dsimp only at h1 h2 h3
  refine ⟨?_, ?_, ?_, ?_⟩
  · simpa [upsertRecipes] using h1
  · simpa [upsertRecipes, reassignUnknownChapters] using h2
  · simpa [upsertRecipes, reassignUnknownChapters] using h3
  · intro st r h
    unfold upsertStep
    simp [h]

/-- Witness for the skip clause of the C10 theorem applied to an unnamed recipe. -/
theorem upsert_recipes_accounting_witness :
    (("" : String) = "") ∧
    upsertStep none
        { recipes := [], dict := [], log := [], added := 0, updated := 0, merged := 0 }
        { name := "" }
      = { recipes := [], dict := [], log := [], added := 0, updated := 0, merged := 0 } :=
  ⟨rfl, (upsert_recipes_accounting {} [] [] none).2.2.2 _ { name := "" } rfl⟩

/-- C6 counterexample: deleting ordinal 1 from a two-recipe catalog leaves a
    catalog whose index is the simple `{"recipes_by_name", "total_recipes"}`
    dictionary written by the `--delete` handler, not the full
    `build_recipe_index` rebuild of the post-mutation content. -/
theorem delete_replaces_index_shape :
    ((deleteRecipesCmd
        { recipes := [{ name := "A" }, { name := "B" }],
          index := some (.full (buildRecipeIndex
            { recipes := [{ name := "A" }, { name := "B" }] })) }
        [1]).map
      (fun c => c.index == some (.full (buildRecipeIndex c)))) = some false ∧
    ((deleteRecipesCmd
        { recipes := [{ name := "A" }, { name := "B" }],
          index := some (.full (buildRecipeIndex
            { recipes := [{ name := "A" }, { name := "B" }] })) }
        [1]).map
      (fun c => match c.index with
        | some (.simple _ _) => true
        | _ => false)) = some true := by
  constructor <;> decide

/-- C6 amended: `upsert_recipes` always finishes with `index` set to the full
    `build_recipe_index` rebuild of the post-mutation catalog, never patched
    incrementally; but the `--delete` handler instead overwrites an existing
    index with the differently shaped simple
    `{"recipes_by_name", "total_recipes"}` dictionary. -/
theorem index_after_mutation :
    (∀ (catalog : Catalog) (newRecipes : List Recipe) (newChapters : List Chapter)
        (src : Option String),
      (upsertRecipes catalog newRecipes newChapters src).1.index
        = some (.full (buildRecipeIndex
            (upsertRecipes catalog newRecipes newChapters src).1))) ∧
    (∀ (catalog : Catalog) (nums : List Nat) (c' : Catalog),
      deleteRecipesCmd catalog nums = some c' → catalog.index.isSome →
      ∃ m t, c'.index = some (.simple m t)) := by
  constructor
  · intro catalog newRecipes newChapters src
    rfl
  · intro catalog nums c' hdel hidx
    rcases hix : catalog.index with _ | i
    · rw [hix] at hidx
      simp at hidx
    · unfold deleteRecipesCmd at hdel
      rw [hix] at hdel
      dsimp only at hdel
      split at hdel
      · exact absurd hdel (by simp)
      · rw [Option.some.injEq] at hdel
        subst hdel
        exact ⟨_, _, rfl⟩

/-- Witness for the amended C6 theorem: the delete clause applied to a concrete
    catalog with an index. -/
theorem index_after_mutation_witness :
    deleteRecipesCmd
        { recipes := [{ name := "A" }, { name := "B" }],
          index := some (.full (buildRecipeIndex
            { recipes := [{ name := "A" }, { name := "B" }] })) }
        [1]
      = some { recipes := [{ name := "B" }],
               deletion_log := [{ deleted := ["A"] }],
               index := some (.simple [("B", 0)] 1) } ∧
    (some (.full (buildRecipeIndex
        { recipes := [{ name := "A" }, { name := "B" }] })) : Option IndexVal).isSome ∧
    ∃ m t, (some (IndexVal.simple [("B", 0)] 1) : Option IndexVal) = some (.simple m t) := by
  refine ⟨by decide, by decide, ?_⟩
  have h := index_after_mutation.2
    { recipes := [{ name := "A" }, { name := "B" }],
      index := some (.full (buildRecipeIndex
        { recipes := [{ name := "A" }, { name := "B" }] })) }
    [1]
    { recipes := [{ name := "B" }],
      deletion_log := [{ deleted := ["A"] }],
      index := some (.simple [("B", 0)] 1) }
    (by decide) (by decide)
  exact h

/-! ### Dictionary lemmas for the upsert matching argument (claim C1) -/

/-- A successful `lookup` exhibits a member of the association list. -/
theorem mem_of_lookup_eq_some {β : Type} {k : String} {v : β} {d : List (String × β)}
    (h : List.lookup k d = some v) : (k, v) ∈ d := by
  induction d with
  | nil => simp [List.lookup] at h
  | cons q d ih =>
    obtain ⟨a, b⟩ := q
    rw [List.lookup_cons] at h
    cases hk : (k == a) with
    | true =>
      rw [hk] at h
      obtain rfl : b = v := by injection h
      have hkq : k = a := eq_of_beq hk
      subst hkq
      left
    | false =>
      rw [hk] at h
      right
      exact ih h

/-- Members of `assocSet d k v` are members of `d` or the new pair. -/
theorem mem_assocSet {α : Type} {d : List (String × α)} {k : String} {v : α}
    {p : String × α} (h : p ∈ assocSet d k v) : p ∈ d ∨ p = (k, v) := by
  unfold assocSet at h
  split at h
  · rcases List.mem_map.mp h with ⟨q, hq, hfq⟩
    by_cases hqk : (q.1 == k) = true
    · rw [if_pos hqk] at hfq
      right
      exact hfq.symm
    · rw [if_neg hqk] at hfq
      left
      rw [← hfq]
      exact hq
  · rcases List.mem_append.mp h with hq | hq
    · left
      exact hq
    · right
      simpa using hq

/-- Updating values in place does not change which keys `lookup` finds. -/
theorem lookup_isSome_mapValue {α : Type} (d : List (String × α)) (k k' : String) (v : α) :
    ((d.map (fun p => if p.1 == k then (k, v) else p)).lookup k').isSome
      = (d.lookup k').isSome := by
  induction d with
  | nil => rfl
  | cons q d ih =>
    obtain ⟨a, b⟩ := q
    simp only [List.map_cons]
    by_cases hq : ((a, b).1 == k) = true
    · have hkq : a = k := eq_of_beq hq
      rw [if_pos hq]
      simp only [List.lookup_cons]
      rw [hkq]
      cases hk' : (k' == k) with
      | true => rfl
      | false => exact ih
    · rw [if_neg hq]
      simp only [List.lookup_cons]
      cases hk' : (k' == a) with
      | true => rfl
      | false => exact ih

/-- `lookup` over an appended singleton. -/
theorem lookup_append_single {α : Type} (d : List (String × α)) (k k' : String) (v : α) :
    ((d ++ [(k, v)]).lookup k').isSome
      = ((d.lookup k').isSome || k' == k) := by
  induction d with
  | nil =>
    simp only [List.nil_append, List.lookup_cons, List.lookup_nil]
    cases hk' : (k' == k) <;> simp [hk']
  | cons q d ih =>
    obtain ⟨a, b⟩ := q
    simp only [List.cons_append, List.lookup_cons]
    cases hk' : (k' == a) with
    | true => rfl
    | false => exact ih

/-- Key set of `assocSet`: the old keys plus `k`. -/
theorem assocSet_lookup_isSome {α : Type} (d : List (String × α)) (k k' : String) (v : α) :
    ((assocSet d k v).lookup k').isSome
      = ((d.lookup k').isSome || k' == k) := by
  by_cases hcond : (List.lookup k d).isSome = true
  · unfold assocSet
    rw [if_pos hcond, lookup_isSome_mapValue]
    cases hkb : (k' == k) with
    | true =>
      have hke : k' = k := eq_of_beq hkb
      subst hke
      simp [hcond]
    | false => simp
  · unfold assocSet
    rw [if_neg hcond]
    exact lookup_append_single d k k' v


/-- Soundness of the fold that builds `existing_recipes`. -/
theorem buildDictAux_sound (recipes : List Recipe) (l : List (Nat × Recipe))
    (d : List (String × Nat))
    (hl : ∀ q ∈ l, recipes[q.1]? = some q.2)
    (hd : ∀ p ∈ d, dictEntryOk recipes p) :
    ∀ p ∈ l.foldl
      (fun d q => if q.2.name == "" then d
        else assocSet d (normalizeRecipeName q.2.name) q.1) d,
      dictEntryOk recipes p := by
  induction l generalizing d with
  | nil => exact hd
  | cons q l ih =>
    simp only [List.foldl_cons]
    refine ih _ (fun q' hq' => hl q' (List.mem_cons_of_mem _ hq')) ?_
    intro p hp
    by_cases hq : (q.2.name == "") = true
    · rw [if_pos hq] at hp
      exact hd p hp
    · rw [if_neg hq] at hp
      rcases mem_assocSet hp with hmem | rfl
      · exact hd p hmem
      · exact ⟨q.2, hl q (List.mem_cons_self _ _), by simpa using hq, rfl⟩

/-- Every `existing_recipes` entry points at a named recipe with that
    normalized name. -/
theorem buildExistingDict_sound (recipes : List Recipe) :
    ∀ p ∈ buildExistingDict recipes, dictEntryOk recipes p := by
  refine buildDictAux_sound recipes recipes.enum [] ?_ (by simp)
  intro q hq
  obtain ⟨i, r⟩ := q
  exact List.mk_mem_enum_iff_getElem?.mp hq

/-- Fold steps never remove keys from `existing_recipes`. -/
theorem buildDictAux_mono (l : List (Nat × Recipe))
    (d : List (String × Nat)) (k : String)
    (hk : (d.lookup k).isSome = true) :
    ((l.foldl
      (fun d q => if q.2.name == "" then d
        else assocSet d (normalizeRecipeName q.2.name) q.1) d).lookup k).isSome = true := by
  induction l generalizing d with
  | nil => exact hk
  | cons q l ih =>
    simp only [List.foldl_cons]
    refine ih _ ?_
    by_cases hq : (q.2.name == "") = true
    · rw [if_pos hq]
      exact hk
    · rw [if_neg hq]
      rw [assocSet_lookup_isSome]
      simp [hk]

/-- Completeness: every named recipe's normalized name is a key of
    `existing_recipes`. -/
theorem buildExistingDict_complete (recipes : List Recipe) (i : Nat) (r : Recipe)
    (h : recipes[i]? = some r) (hn : ¬ (r.name = "")) :
    ((buildExistingDict recipes).lookup (normalizeRecipeName r.name)).isSome = true := by
  have hmem : (i, r) ∈ recipes.enum := List.mk_mem_enum_iff_getElem?.mpr h
  unfold buildExistingDict
  -- peel the fold along the membership of (i, r)
  suffices hgen : ∀ (l : List (Nat × Recipe)) (d : List (String × Nat)), (i, r) ∈ l →
      ((l.foldl
        (fun d q => if q.2.name == "" then d
          else assocSet d (normalizeRecipeName q.2.name) q.1) d).lookup
        (normalizeRecipeName r.name)).isSome = true by
    exact hgen recipes.enum [] hmem
  intro l
  induction l with
  | nil => intro d h'; cases h'
  | cons q l ih =>
    intro d h'
    rcases List.mem_cons.mp h' with rfl | hmem'
    · simp only [List.foldl_cons]
      have hq : (r.name == "") = false := by simpa using hn
      rw [if_neg (by simp [hq])]
      refine buildDictAux_mono l _ _ ?_
      rw [assocSet_lookup_isSome]
      simp
    · simp only [List.foldl_cons]
      exact ih _ hmem'


/-- Soundness of the matcher: a found index points at a named recipe that
    matches the incoming name exactly (after normalization) or fuzzily. -/
theorem findMatchIdx_sound (st : UpsertState) (nm : String) (idx : Nat)
    (hdict : st.dict = buildExistingDict st.recipes)
    (h : findMatchIdx st nm = some idx) :
    ∃ old, st.recipes[idx]? = some old ∧ ¬ (old.name = "") ∧
      (normalizeRecipeName old.name = normalizeRecipeName nm ∨
        fuzzyMatchNames nm old.name = true) := by
  unfold findMatchIdx at h
  rcases hlk : (st.dict.lookup (normalizeRecipeName nm)) with _ | i
  · rw [hlk] at h
    simp only [Option.map_eq_some'] at h
    obtain ⟨p, hfind, hp2⟩ := h
    have hmem : p ∈ st.dict := List.mem_of_find?_eq_some hfind
    have hpred := List.find?_some hfind
    rw [hdict] at hmem
    obtain ⟨old, hold, holdn, holdk⟩ := buildExistingDict_sound st.recipes p hmem
    subst hp2
    refine ⟨old, hold, holdn, Or.inr ?_⟩
    have hname : recipeNameAt st.recipes p.2 = old.name := by
      unfold recipeNameAt
      rw [hold]
      rfl
    rw [hname] at hpred
    exact hpred
  · rw [hlk] at h
    have hii : i = idx := by injection h
    rw [← hii]
    have hmem : (normalizeRecipeName nm, i) ∈ st.dict := mem_of_lookup_eq_some hlk
    rw [hdict] at hmem
    obtain ⟨old, hold, holdn, holdk⟩ := buildExistingDict_sound st.recipes _ hmem
    exact ⟨old, hold, holdn, Or.inl holdk⟩

/-- Completeness of the matcher: if some catalog entry matches the incoming
    name, `upsert_recipes` finds a match. -/
theorem findMatchIdx_isSome (st : UpsertState) (nm : String)
    (hdict : st.dict = buildExistingDict st.recipes)
    (i : Nat) (e : Recipe) (he : st.recipes[i]? = some e) (hn : ¬ (e.name = ""))
    (hm : normalizeRecipeName e.name = normalizeRecipeName nm ∨
      fuzzyMatchNames nm e.name = true) :
    (findMatchIdx st nm).isSome = true := by
  unfold findMatchIdx
  rcases hlk : (st.dict.lookup (normalizeRecipeName nm)) with _ | j
  · have hkey := buildExistingDict_complete st.recipes i e he hn
    rcases hm with hm | hm
    · rw [hm, ← hdict, hlk] at hkey
      simp at hkey
    · rw [Option.isSome_iff_exists] at hkey
      obtain ⟨j, hj⟩ := hkey
      have hmem : (normalizeRecipeName e.name, j) ∈ buildExistingDict st.recipes :=
        mem_of_lookup_eq_some hj
      obtain ⟨old, hold, holdn, holdk⟩ := buildExistingDict_sound st.recipes _ hmem
      have hfz : fuzzyMatchNames nm old.name = true := by
        unfold fuzzyMatchNames at hm ⊢
        rw [holdk]
        exact hm
      have hpred : (fun p : String × Nat =>
          fuzzyMatchNames nm (recipeNameAt st.recipes p.2))
            (normalizeRecipeName e.name, j) = true := by
        show fuzzyMatchNames nm (recipeNameAt st.recipes j) = true
        unfold recipeNameAt
        rw [hold]
        exact hfz
      have hfind : ((buildExistingDict st.recipes).find?
          (fun p => fuzzyMatchNames nm (recipeNameAt st.recipes p.2))).isSome = true := by
        rw [List.find?_isSome]
        exact ⟨_, hmem, hpred⟩
      rw [hdict]
      rw [Option.isSome_iff_exists] at hfind
      obtain ⟨p, hp⟩ := hfind
      rw [hp]
      rfl
  · rfl

/-- Characterization of `upsertStep` on a matched named recipe: one slot is
    replaced (by the incoming recipe or by a merge keeping the old name), one
    audit entry is appended, and `added` is untouched. -/
theorem upsertStep_matched (src : Option String) (st : UpsertState) (r : Recipe)
    (idx : Nat) (hname : ¬ (r.name = ""))
    (hm : findMatchIdx st r.name = some idx) :
    ∃ newR e,
      (upsertStep src st r).recipes = st.recipes.set idx newR ∧
      (upsertStep src st r).log = st.log ++ [e] ∧
      (upsertStep src st r).added = st.added ∧
      (e.action = "merged" ∨ e.action = "updated") ∧
      (newR.name = r.name ∨ newR.name = ((st.recipes[idx]?).getD {}).name) := by
  have hb : (r.name == "") = false := by simpa using hname
  unfold upsertStep
  simp only [hb, Bool.false_eq_true, if_false, hm]
  by_cases hsm : shouldMerge ((st.recipes[idx]?).getD {}).ingredients.length
      ((st.recipes[idx]?).getD {}).instructions.length
      r.ingredients.length r.instructions.length = true
  · simp only [hsm, if_true]
    exact ⟨_, _, rfl, rfl, trivial, Or.inl rfl, Or.inr rfl⟩
  · simp only [hsm, Bool.false_eq_true, if_false]
    exact ⟨_, _, rfl, rfl, trivial, Or.inr rfl, Or.inl rfl⟩

/-- Characterization of `upsertStep` on an unmatched named recipe: it is
    appended as-is with an `added` audit entry. -/
theorem upsertStep_unmatched (src : Option String) (st : UpsertState) (r : Recipe)
    (hname : ¬ (r.name = ""))
    (hm : findMatchIdx st r.name = none) :
    (upsertStep src st r).recipes = st.recipes ++ [r] ∧
    (∃ e, (upsertStep src st r).log = st.log ++ [e] ∧ e.action = "added") ∧
    (upsertStep src st r).added = st.added + 1 := by
  have hb : (r.name == "") = false := by simpa using hname
  unfold upsertStep
  simp only [hb, Bool.false_eq_true, if_false, hm]
  exact ⟨trivial, ⟨_, rfl, rfl⟩, trivial⟩

/-- `reassign_unknown_chapters` never changes a recipe's name. -/
theorem reassignRecipe_name (lk : List (String × (String × Option String)))
    (x : Recipe) : (reassignRecipe lk x).name = x.name := by
  simp only [reassignRecipe]
  repeat' split
  all_goals rfl

/-- Single-recipe `upsert_recipes` projections, unfolded to the loop step. -/
theorem upsertRecipes_single_proj (c : Catalog) (r : Recipe) :
    (upsertRecipes c [r] [] none).1.recipes
        = ((upsertStep none (mkInit c) r).recipes).map
            (reassignRecipe (buildChapterLookup c.chapters)) ∧
    (upsertRecipes c [r] [] none).1.upsert_log = (upsertStep none (mkInit c) r).log ∧
    (upsertRecipes c [r] [] none).2.1 = (upsertStep none (mkInit c) r).added :=
  ⟨rfl, rfl, rfl⟩


/-- Propositional reading of `nameMatches`. -/
theorem nameMatches_iff (t s : String) :
    nameMatches t s = true ↔
      (¬ (s = "") ∧ (normalizeRecipeName s = normalizeRecipeName t ∨
        fuzzyMatchNames t s = true)) := by
  unfold nameMatches
  simp

/-- Reassignment keeps the name list of the catalog unchanged. -/
theorem reassign_map_names (lk : List (String × (String × Option String)))
    (l : List Recipe) :
    (l.map (reassignRecipe lk)).map Recipe.name = l.map Recipe.name := by
  rw [List.map_map]
  exact List.map_congr_left (fun x _ => reassignRecipe_name lk x)

/-- Filtering is unchanged by overwriting a position whose old and new values
    both pass the filter. -/
theorem filter_length_set (p : String → Bool) :
    ∀ (l : List String) (i : Nat) (a v : String), l[i]? = some a → p a = true →
      p v = true → ((l.set i v).filter p).length = (l.filter p).length := by
  intro l
  induction l with
  | nil =>
    intro i a v h
    simp at h
  | cons x t ih =>
    intro i a v h hpa hpv
    cases i with
    | zero =>
      obtain rfl : x = a := by simpa using h
      simp [List.set_cons_zero, List.filter_cons, hpa, hpv]
    | succ i =>
      have h' : t[i]? = some a := by simpa using h
      rw [List.set_cons_succ]
      simp only [List.filter_cons]
      cases hx : p x <;> simp [ih i a v h' hpa hpv]

/-- Counting matches through names. -/
theorem filter_name_length (p : String → Bool) (l : List Recipe) :
    (l.filter (fun e => p e.name)).length = ((l.map Recipe.name).filter p).length := by
  rw [List.filter_map, List.length_map]
  rfl

/-- Summary of a single-recipe `upsert_recipes` call whose recipe matches slot
    `idx`: the name list changes only at `idx` (to the incoming name or the
    matched name), nothing is added, and one `updated`/`merged` entry is
    logged. -/
theorem upsert_single_matched (c : Catalog) (r : Recipe) (hr : ¬ (r.name = ""))
    (idx : Nat) (hm : findMatchIdx (mkInit c) r.name = some idx) :
    ∃ (newR : Recipe) (e : UpsertLogEntry),
      (upsertRecipes c [r] [] none).1.recipes.map Recipe.name
          = (c.recipes.map Recipe.name).set idx newR.name ∧
      (upsertRecipes c [r] [] none).1.recipes.length = c.recipes.length ∧
      (upsertRecipes c [r] [] none).1.upsert_log = c.upsert_log ++ [e] ∧
      (upsertRecipes c [r] [] none).2.1 = 0 ∧
      (e.action = "merged" ∨ e.action = "updated") ∧
      (newR.name = r.name ∨ newR.name = ((c.recipes[idx]?).getD {}).name) := by
  obtain ⟨newR, e, hrec, hlog, hadd, hact, hname⟩ :=
    upsertStep_matched none (mkInit c) r idx hr hm
  obtain ⟨hp1, hp2, hp3⟩ := upsertRecipes_single_proj c r
  have hmrec : (mkInit c).recipes = c.recipes := rfl
  have hmlog : (mkInit c).log = c.upsert_log := rfl
  have hmadd : (mkInit c).added = 0 := rfl
  rw [hmrec] at hrec hname
  rw [hmlog] at hlog
  rw [hmadd] at hadd
  refine ⟨newR, e, ?_, ?_, ?_, ?_, hact, hname⟩
  · rw [hp1, reassign_map_names, hrec, List.map_set]
  · rw [hp1, List.length_map, hrec, List.length_set]
  · rw [hp2, hlog]
  · rw [hp3, hadd]

/-- After one single-recipe call, some catalog entry matches the recipe name. -/
theorem upsert_single_gives_match (c : Catalog) (r : Recipe) (hr : ¬ (r.name = "")) :
    ∃ (i : Nat) (eR : Recipe), (upsertRecipes c [r] [] none).1.recipes[i]? = some eR ∧
      ¬ (eR.name = "") ∧
      (normalizeRecipeName eR.name = normalizeRecipeName r.name ∨
        fuzzyMatchNames r.name eR.name = true) := by
  obtain ⟨hp1, hp2, hp3⟩ := upsertRecipes_single_proj c r
  have hmrec : (mkInit c).recipes = c.recipes := rfl
  rcases hm : findMatchIdx (mkInit c) r.name with _ | idx
  · obtain ⟨hrec, _, _⟩ := upsertStep_unmatched none (mkInit c) r hr hm
    rw [hmrec] at hrec
    refine ⟨c.recipes.length, reassignRecipe (buildChapterLookup c.chapters) r, ?_, ?_, ?_⟩
    · rw [hp1, List.getElem?_map, hrec, List.getElem?_concat_length]
      rfl
    · rw [reassignRecipe_name]
      exact hr
    · left
      rw [reassignRecipe_name]
  · obtain ⟨old, hold, holdn, holdm⟩ :=
      findMatchIdx_sound (mkInit c) r.name idx rfl hm
    rw [hmrec] at hold
    obtain ⟨newR, e, hrec, _, _, _, hname⟩ :=
      upsertStep_matched none (mkInit c) r idx hr hm
    rw [hmrec] at hrec hname
    have hidxlt : idx < c.recipes.length := (List.getElem?_eq_some.mp hold).1
    refine ⟨idx, reassignRecipe (buildChapterLookup c.chapters) newR, ?_, ?_, ?_⟩
    · rw [hp1, List.getElem?_map, hrec]
      rw [List.getElem?_set_self (by simpa using hidxlt)]
      rfl
    · rw [reassignRecipe_name]
      rcases hname with h | h
      · rw [h]
        exact hr
      · rw [h, hold]
        exact holdn
    · rw [reassignRecipe_name]
      rcases hname with h | h
      · left
        rw [h]
      · rw [h, hold]
        exact holdm

/-- C1: upserting the same named extracted recipe twice leaves the catalog with
    a single entry for it — the second call never appends a recipe and logs an
    `updated`/`merged` audit entry, never a second `added` one; and when the
    recipe was not already present (no existing entry matches its name), the
    double upsert leaves exactly one matching entry in `catalog.recipes`. -/
theorem upsert_twice_idempotent (c : Catalog) (r : Recipe) (hr : ¬ (r.name = "")) :
    ((upsertRecipes (upsertRecipes c [r] [] none).1 [r] [] none).1.recipes.length
        = (upsertRecipes c [r] [] none).1.recipes.length) ∧
    ((upsertRecipes (upsertRecipes c [r] [] none).1 [r] [] none).2.1 = 0) ∧
    (∃ e : UpsertLogEntry,
      (upsertRecipes (upsertRecipes c [r] [] none).1 [r] [] none).1.upsert_log
          = (upsertRecipes c [r] [] none).1.upsert_log ++ [e] ∧
      (e.action = "updated" ∨ e.action = "merged")) ∧
    ((∀ eR ∈ c.recipes, nameMatches r.name eR.name = false) →
      ((upsertRecipes (upsertRecipes c [r] [] none).1 [r] [] none).1.recipes.filter
          (fun eR => nameMatches r.name eR.name)).length = 1) := by
  obtain ⟨i, eR, hei, hen, hem⟩ := upsert_single_gives_match c r hr
  have hm2 : (findMatchIdx (mkInit (upsertRecipes c [r] [] none).1) r.name).isSome
      = true :=
    findMatchIdx_isSome _ r.name rfl i eR hei hen hem
  rw [Option.isSome_iff_exists] at hm2
  obtain ⟨idx2, hm2⟩ := hm2
  obtain ⟨newR2, e2, hnames2, hlen2, hlog2, hadd2, hact2, hname2⟩ :=
    upsert_single_matched (upsertRecipes c [r] [] none).1 r hr idx2 hm2
  refine ⟨hlen2, hadd2, ⟨e2, hlog2, hact2.symm⟩, ?_⟩
  intro Hno
  have hm1 : findMatchIdx (mkInit c) r.name = none := by
    rcases hq : findMatchIdx (mkInit c) r.name with _ | idx
    · rfl
    · exfalso
      obtain ⟨old, hold, holdn, holdm⟩ := findMatchIdx_sound (mkInit c) r.name idx rfl hq
      have hmr : (mkInit c).recipes = c.recipes := rfl
      rw [hmr] at hold
      have hmem : old ∈ c.recipes := List.getElem?_mem hold
      have htrue : nameMatches r.name old.name = true :=
        (nameMatches_iff _ _).mpr ⟨holdn, holdm⟩
      rw [Hno old hmem] at htrue
      exact absurd htrue (by simp)
  have hnames1 : (upsertRecipes c [r] [] none).1.recipes.map Recipe.name
      = c.recipes.map Recipe.name ++ [r.name] := by
    obtain ⟨hrec, _, _⟩ := upsertStep_unmatched none (mkInit c) r hr hm1
    have hmr : (mkInit c).recipes = c.recipes := rfl
    rw [hmr] at hrec
    obtain ⟨hp1, _, _⟩ := upsertRecipes_single_proj c r
    rw [hp1, reassign_map_names, hrec, List.map_append]
    rfl
  obtain ⟨old2, hold2, hold2n, hold2m⟩ :=
    findMatchIdx_sound (mkInit (upsertRecipes c [r] [] none).1) r.name idx2 rfl hm2
  have hmr2 : (mkInit (upsertRecipes c [r] [] none).1).recipes
      = (upsertRecipes c [r] [] none).1.recipes := rfl
  rw [hmr2] at hold2
  have hpold2 : nameMatches r.name old2.name = true :=
    (nameMatches_iff _ _).mpr ⟨hold2n, hold2m⟩
  have hpnew2 : nameMatches r.name newR2.name = true := by
    rcases hname2 with h | h
    · rw [h]
      exact (nameMatches_iff _ _).mpr ⟨hr, Or.inl rfl⟩
    · rw [h, hold2]
      exact hpold2
  have hslot : ((upsertRecipes c [r] [] none).1.recipes.map Recipe.name)[idx2]?
      = some old2.name := by
    rw [List.getElem?_map, hold2]
    rfl
  rw [filter_name_length (nameMatches r.name)
    (upsertRecipes (upsertRecipes c [r] [] none).1 [r] [] none).1.recipes]
  rw [hnames2]
  rw [filter_length_set (nameMatches r.name) _ idx2 old2.name newR2.name hslot
    hpold2 hpnew2]
  rw [hnames1, List.filter_append]
  have hfilc : (c.recipes.map Recipe.name).filter (nameMatches r.name) = [] := by
    rw [List.filter_eq_nil_iff]
    intro s hs
    rcases List.mem_map.mp hs with ⟨eR0, heR0, rfl⟩
    simp [Hno eR0 heR0]
  have hpr : nameMatches r.name r.name = true :=
    (nameMatches_iff _ _).mpr ⟨hr, Or.inl rfl⟩
  rw [hfilc]
  simp [hpr]


/-- Witness for the C1 theorem: double upsert of a concrete recipe into the
    empty catalog. -/
theorem upsert_twice_idempotent_witness :
    ¬ (pancakeR.name = "") ∧
    (((upsertRecipes (upsertRecipes {} [pancakeR] [] none).1 [pancakeR] [] none).1.recipes.length
        = (upsertRecipes {} [pancakeR] [] none).1.recipes.length) ∧
      ((upsertRecipes (upsertRecipes {} [pancakeR] [] none).1 [pancakeR] [] none).2.1 = 0) ∧
      (∃ e : UpsertLogEntry,
        (upsertRecipes (upsertRecipes {} [pancakeR] [] none).1 [pancakeR] [] none).1.upsert_log
            = (upsertRecipes {} [pancakeR] [] none).1.upsert_log ++ [e] ∧
        (e.action = "updated" ∨ e.action = "merged")) ∧
      ((∀ eR ∈ (({} : Catalog)).recipes, nameMatches pancakeR.name eR.name = false) →
        ((upsertRecipes (upsertRecipes {} [pancakeR] [] none).1 [pancakeR] [] none).1.recipes.filter
            (fun eR => nameMatches pancakeR.name eR.name)).length = 1)) :=
  ⟨by decide, upsert_twice_idempotent {} pancakeR (by decide)⟩

/-- C7 counterexample: a plain-prose reply with no parseable JSON that happens
    to contain the word "recipe" is classified as type "recipe" by the
    text-pattern fallback, not "other". -/
theorem classify_prose_word_fallback :
    (classifyPage (fun _ => none) (some "This page clearly shows a recipe.")).type
        = "recipe" ∧
    ¬ ((classifyPage (fun _ => none) (some "This page clearly shows a recipe.")).type
        = "other") ∧
    (classifyPage (fun _ => none) (some "This page clearly shows a recipe.")).confidence
        = "low" := by
  refine ⟨by decide, by decide, by decide⟩

/-- C7 amended: on any reply whose JSON parse fails, `classify_page` never
    raises — it keeps confidence "low" and returns type "other" unless the
    lowercased reply contains one of the words chapter / recipe / article /
    photo (checked in that order), in which case that word's type is
    returned. -/
theorem classify_no_json_defaults (decode : String → Option ClassifyPayload)
    (resp : String) (hparse : parseJsonResponse decode resp = none) :
    (classifyPage decode (some resp)).confidence = "low" ∧
    (classifyPage decode (some resp)).type =
      (if listHasSub ("chapter".data) (pyLower resp).data then "chapter"
       else if listHasSub ("recipe".data) (pyLower resp).data then "recipe"
       else if listHasSub ("article".data) (pyLower resp).data then "article"
       else if listHasSub ("photo".data) (pyLower resp).data then "photo"
       else "other") := by
  unfold classifyPage
  by_cases hre : (resp == "") = true
  · have hr0 : resp = "" := by simpa using hre
    subst hr0
    exact ⟨rfl, rfl⟩
  · have hb : (resp == "") = false := by simpa using hre
    simp only [hb, Bool.false_eq_true, if_false, hparse]
    by_cases h1 : listHasSub ("chapter".data) (pyLower resp).data = true
    · simp [h1]
    · simp only [h1, Bool.false_eq_true, if_false]
      by_cases h2 : listHasSub ("recipe".data) (pyLower resp).data = true
      · simp [h2]
      · simp only [h2, Bool.false_eq_true, if_false]
        by_cases h3 : listHasSub ("article".data) (pyLower resp).data = true
        · simp [h3]
        · simp only [h3, Bool.false_eq_true, if_false]
          by_cases h4 : listHasSub ("photo".data) (pyLower resp).data = true
          · simp [h4]
          · simp only [h4, Bool.false_eq_true, if_false]
            exact ⟨by trivial, by trivial⟩

/-- Witness for the amended C7 theorem: a keyword-free prose reply. -/
theorem classify_no_json_defaults_witness :
    parseJsonResponse (fun _ => (none : Option ClassifyPayload))
        "Some plain unstructured prose." = none ∧
    ((classifyPage (fun _ => none) (some "Some plain unstructured prose.")).confidence
        = "low" ∧
      (classifyPage (fun _ => none)
          (some "Some plain unstructured prose.")).type =
        (if listHasSub ("chapter".data)
            (pyLower "Some plain unstructured prose.").data then "chapter"
         else if listHasSub ("recipe".data)
            (pyLower "Some plain unstructured prose.").data then "recipe"
         else if listHasSub ("article".data)
            (pyLower "Some plain unstructured prose.").data then "article"
         else if listHasSub ("photo".data)
            (pyLower "Some plain unstructured prose.").data then "photo"
         else "other")) :=
  ⟨rfl, classify_no_json_defaults (fun _ => none) "Some plain unstructured prose." rfl⟩

/-- C8 counterexample: `query_ollama` on a 300-status response with a valid
    JSON body returns the body's `response` field, not the explicit failure
    value — `raise_for_status` only raises for statuses in `[400, 600)`, so a
    non-2xx 3xx reply does not surface as `None`. -/
theorem query_ollama_3xx_not_failure :
    queryOllama (.ok 300 (some { responseText := some "ok" })) = some "ok" ∧
    ¬ (queryOllama (.ok 300 (some { responseText := some "ok" })) = none) := by
  refine ⟨by decide, by decide⟩

/-- C8 amended: a connection failure or any request exception on either
    backend, an HTTP error status (4xx/5xx) on the local backend, any non-200
    status on the hosted backend, and an oversize image with no backup model
    all surface as the explicit failure value `None`; the gateway functions
    are total, so no exception propagates past this boundary. -/
theorem gateway_failures_return_none :
    (queryOllama .connError = none) ∧
    (queryOllama .exn = none) ∧
    (∀ (s : Nat) (b : Option OllamaJson), 400 ≤ s → s < 600 →
      queryOllama (.ok s b) = none) ∧
    (∀ key : Option String, queryClaude key .connError = none) ∧
    (∀ key : Option String, queryClaude key .exn = none) ∧
    (∀ (key : Option String) (s : Nat) (b : Option ClaudeJson), s ≠ 200 →
      queryClaude key (.ok s b) = none) ∧
    (∀ env : AnalyzeEnv, env.isClaude = true →
      5 * 1024 * 1024 ≤ env.fileSize * 4 / 3 → env.backupModel = none →
      analyzeImage env = none) := by
  refine ⟨rfl, rfl, ?_, ?_, ?_, ?_, ?_⟩
  · intro s b h1 h2
    unfold queryOllama
    dsimp only
    rw [if_pos ⟨h1, h2⟩]
  · intro key
    unfold queryClaude
    by_cases hk : strTruthy key = true <;> simp [hk]
  · intro key
    unfold queryClaude
    by_cases hk : strTruthy key = true <;> simp [hk]
  · intro key s b hs
    unfold queryClaude
    by_cases hk : strTruthy key = true
    · simp only [hk, Bool.not_true, Bool.false_eq_true, if_false]
      rw [if_pos hs]
    · simp [hk]
  · intro env hcl hsz hbk
    unfold analyzeImage
    rw [hcl]
    by_cases hk : strTruthy env.apiKey = true
    · simp only [hk, Bool.not_true, Bool.false_eq_true, if_false, if_true]
      rw [if_pos hsz, hbk]
      simp [strTruthy]
    · simp [hk]

/-- Witness for the amended C8 theorem at concrete failure inputs. -/
theorem gateway_failures_return_none_witness :
    ((400 : Nat) ≤ 500 ∧ (500 : Nat) < 600 ∧ queryOllama (.ok 500 none) = none) ∧
    ((404 : Nat) ≠ 200 ∧ queryClaude (some "k") (.ok 404 none) = none) ∧
    (({ isClaude := true, apiKey := some "k", fileSize := 6291456 } : AnalyzeEnv).isClaude
        = true ∧
      5 * 1024 * 1024 ≤
        ({ isClaude := true, apiKey := some "k", fileSize := 6291456 } : AnalyzeEnv).fileSize
          * 4 / 3 ∧
      ({ isClaude := true, apiKey := some "k", fileSize := 6291456 } : AnalyzeEnv).backupModel
        = none ∧
      analyzeImage { isClaude := true, apiKey := some "k", fileSize := 6291456 } = none) :=
  ⟨⟨by decide, by decide,
      gateway_failures_return_none.2.2.1 500 none (by decide) (by decide)⟩,
    ⟨by decide, gateway_failures_return_none.2.2.2.2.2.1 (some "k") 404 none (by decide)⟩,
    ⟨rfl, by decide, rfl,
      gateway_failures_return_none.2.2.2.2.2.2
        { isClaude := true, apiKey := some "k", fileSize := 6291456 }
        rfl (by decide) rfl⟩⟩

/-! ### Claim C9: the extraction attempt loop -/

/-- The attempt counter of `extractLoop` grows by at most the number of
    remaining oracle entries. -/
theorem extractLoop_used_le (cc : Option Chapter) (pending : Option Recipe)
    (expected : Nat) (oracle : List (Option ExtractPayload)) (used : Nat)
    (best : ExtractResult) :
    (extractLoop cc pending expected oracle used best).2 ≤ used + oracle.length := by
  induction oracle generalizing used best with
  | nil => simp [extractLoop]
  | cons o rest ih =>
    rcases o with _ | payload
    · simp only [extractLoop]
      have h := ih (used + 1) best
      simp only [List.length_cons]
      omega
    · simp only [extractLoop]
      split
      · split
        · simp only [List.length_cons]
          omega
        · refine le_trans (ih (used + 1) _) ?_
          simp only [List.length_cons]
          omega
      · have h := ih (used + 1) best
        simp only [List.length_cons]
        omega

/-- C9 (amended): `extract_recipes` consumes at most `min (max_retries + 1) 3`
    prompt attempts — the source slices a three-element prompt list with
    `[:max_retries + 1]`, so the spec bound `max_retries + 1` is an
    overestimate beyond 3 but still an upper bound. -/
theorem extract_attempts_bound (cc : Option Chapter) (pending : Option Recipe)
    (mr : Nat) (cls : Option Classification)
    (oracle : List (Option ExtractPayload)) (pa ps : Bool)
    (pp : Option ExtractPayload) :
    (extractRecipes cc pending mr cls oracle pa ps pp).2 ≤ min (mr + 1) 3 := by
  unfold extractRecipes
  have h := extractLoop_used_le cc pending
    (match cls with
     | some cl => cl.recipe_names_visible.length
     | none => 0)
    (oracle.take (min (mr + 1) 3)) 0 {}
  have hlen : (oracle.take (min (mr + 1) 3)).length ≤ min (mr + 1) 3 :=
    List.length_take_le _ _
  dsimp only
  omega

/-- C9 (counterexample): the attempt loop does NOT keep the result with the
    most recipes found so far.  The first attempt yields two complete recipes;
    the second parses three raw recipes that all turn out incomplete, so it is
    reprocessed (3 > 2 raw) and overwrites the best with zero complete recipes
    plus a partial. -/
theorem extract_best_downgraded :
    (processRecipes none none twoCompletePayload.recipes).1.length = 2 ∧
    (extractRecipes none none 2 none
      [some twoCompletePayload, some threePartialPayload]
      false false none).1.recipes.length = 0 := ⟨rfl, rfl⟩

/-! ### Claim C3: end-of-sequence handling of a pending recipe -/

/-- C3 (counterexample): in multi-file mode a pending recipe carried at the
    end of the sequence is DROPPED when it lacks instructions — after the
    `soupPage` run the loop still holds a pending recipe, yet the returned
    recipe list is empty. -/
theorem multi_final_partial_dropped :
    (runMultiLoop 0 none [soupPage]).pending = some soupPendF ∧
    (processMultipleFiles 0 none [soupPage]).1 = [] := ⟨rfl, rfl⟩

/-- A list known to be nonempty has `isEmpty = false`. -/
theorem isEmptyFalseOfNe {α : Type} {l : List α} (h : ¬ (l = [])) : l.isEmpty = false := by
  cases l with
  | nil => exact absurd rfl h
  | cons a t => rfl

/-- C3 (amended): folder mode force-finalizes a still-pending recipe
    unconditionally, appending it marked incomplete with the truncation note;
    multi-file mode appends it (marked complete, with its own note) only when
    it has a name, ingredients and instructions, and otherwise returns the
    loop recipes unchanged — the pending recipe is dropped. -/
theorem pipeline_pending_finalization (mr : Nat) (pages : List PageOracle)
    (cc : Option Chapter) :
    (∀ p, (runFolderLoop mr pages).pending = some p →
      { p with
          is_complete := some false,
          note := some "Recipe may be incomplete - continued beyond processed pages" }
        ∈ (processCookbookFolder mr pages).recipes) ∧
    (∀ q, (runMultiLoop mr cc pages).pending = some q →
      ((¬ (q.name = "") ∧ ¬ (q.ingredients = []) ∧ ¬ (q.instructions = [])) →
        { q with
            note := some "Final partial saved as complete",
            is_complete := some true } ∈ (processMultipleFiles mr cc pages).1) ∧
      ((q.name = "" ∨ q.ingredients = [] ∨ q.instructions = []) →
        (processMultipleFiles mr cc pages).1 = (runMultiLoop mr cc pages).recipes)) := by
  constructor
  · intro p hp
    unfold processCookbookFolder
    dsimp only
    rw [hp]
    exact List.mem_append_right _ (List.mem_singleton.mpr rfl)
  · intro q hq
    constructor
    · intro h3
      unfold processMultipleFiles
      dsimp only
      rw [hq]
      dsimp only
      rw [if_pos]
      · exact List.mem_append_right _ (List.mem_singleton.mpr rfl)
      · have h1 : (q.name == "") = false := beq_eq_false_iff_ne.mpr h3.1
        have h2 : q.ingredients.isEmpty = false := isEmptyFalseOfNe h3.2.1
        have h4 : q.instructions.isEmpty = false := isEmptyFalseOfNe h3.2.2
        rw [h1, h2, h4]
        rfl
    · intro h3
      unfold processMultipleFiles
      dsimp only
      rw [hq]
      dsimp only
      rw [if_neg]
      intro hcond
      simp only [Bool.and_eq_true, Bool.not_eq_true'] at hcond
      rcases h3 with h | h | h
      · rcases hcond with ⟨⟨h1, _⟩, _⟩
        rw [h] at h1
        exact absurd h1 (by decide)
      · rcases hcond with ⟨⟨_, h1⟩, _⟩
        rw [h] at h1
        exact absurd h1 (by decide)
      · rcases hcond with ⟨_, h1⟩
        rw [h] at h1
        exact absurd h1 (by decide)

/-- C3 witness: on `soupPage`, folder mode keeps the pending soup recipe
    (incomplete, with the truncation note) while multi-file mode returns the
    loop recipes unchanged — which `multi_final_partial_dropped` shows to be
    the empty list. -/
theorem pipeline_pending_finalization_witness :
    ({ soupPendF with
         is_complete := some false,
         note := some "Recipe may be incomplete - continued beyond processed pages" }
      ∈ (processCookbookFolder 0 [soupPage]).recipes) ∧
    (processMultipleFiles 0 none [soupPage]).1 = (runMultiLoop 0 none [soupPage]).recipes := by
  obtain ⟨h1, h2⟩ := pipeline_pending_finalization 0 [soupPage] none
  refine ⟨h1 soupPendF rfl, (h2 soupPendF rfl).2 ?_⟩
  right
  right
  rfl

/-! ### Claim C5: the `sub_recipe` role at top level -/

/-- Generic fold-invariant lemma. -/
theorem foldl_preserves {α β : Type} (P : β → Prop) (Q : α → Prop) (f : β → α → β)
    (l : List α) (init : β) (hinit : P init) (hl : ∀ a ∈ l, Q a)
    (hstep : ∀ b a, P b → Q a → P (f b a)) : P (l.foldl f init) := by
  induction l generalizing init with
  | nil => exact hinit
  | cons a t ih =>
    exact ih (f init a) (hstep init a hinit (hl a (List.mem_cons_self a t)))
      (fun x hx => hl x (List.mem_cons_of_mem a hx))

/-- Chapter tagging does not touch `dish_role`. -/
theorem tagChapter_dish_role (cc : Option Chapter) (r : Recipe) :
    (tagChapter cc r).dish_role = r.dish_role := by
  cases cc <;> rfl

/-- `merge_recipes` keeps the first argument's `dish_role`. -/
theorem mergeRecipes_dish_role (r1 r2 : Recipe) :
    (mergeRecipes r1 r2).dish_role = r1.dish_role := rfl

/-- The per-attempt recipe processing introduces no `sub_recipe` role that was
    not already on an input recipe or on the pending recipe. -/
theorem processRecipes_roles (cc : Option Chapter) (pending : Option Recipe)
    (recipes : List Recipe)
    (hl : ∀ r ∈ recipes, noSubRole r)
    (hpend : ∀ p, pending = some p → noSubRole p) :
    (∀ r ∈ (processRecipes cc pending recipes).1, noSubRole r) ∧
    (∀ p, (processRecipes cc pending recipes).2 = some p → noSubRole p) := by
  unfold processRecipes
  refine foldl_preserves
    (fun acc => (∀ r ∈ acc.1, noSubRole r) ∧ (∀ p, acc.2 = some p → noSubRole p))
    noSubRole _ recipes ([], none) ⟨by simp, by simp⟩ hl ?_
  intro b a hb ha
  have hr : noSubRole (tagChapter cc a) := by
    unfold noSubRole
    rw [tagChapter_dish_role]
    exact ha
  dsimp only
  by_cases hc : (tagChapter cc a).is_continuation.getD false = true
  · rw [if_pos hc]
    rcases pending with _ | p
    · dsimp only
      have hr2 : noSubRole { tagChapter cc a with
          note := some "Detected as continuation but no previous page context",
          is_continuation := some false } := hr
      by_cases hcomp : (tagChapter cc a).is_complete.getD true = true
      · rw [if_pos hcomp]
        refine ⟨?_, hb.2⟩
        intro x hx
        rcases List.mem_append.mp hx with hx | hx
        · exact hb.1 x hx
        · rw [List.mem_singleton.mp hx]
          exact hr2
      · rw [if_neg hcomp]
        refine ⟨hb.1, ?_⟩
        intro x hx
        injection hx with hx
        rw [← hx]
        exact hr2
    · dsimp only
      have hm : noSubRole (mergeRecipes p (tagChapter cc a)) := by
        unfold noSubRole
        rw [mergeRecipes_dish_role]
        exact hpend p rfl
      by_cases hcomp : (tagChapter cc a).is_complete.getD true = true
      · rw [if_pos hcomp]
        refine ⟨?_, hb.2⟩
        intro x hx
        rcases List.mem_append.mp hx with hx | hx
        · exact hb.1 x hx
        · rw [List.mem_singleton.mp hx]
          exact hm
      · rw [if_neg hcomp]
        refine ⟨hb.1, ?_⟩
        intro x hx
        injection hx with hx
        rw [← hx]
        exact hm
  · rw [if_neg hc]
    by_cases hcomp : (tagChapter cc a).is_complete.getD true = true
    · rw [if_pos hcomp]
      refine ⟨?_, hb.2⟩
      intro x hx
      rcases List.mem_append.mp hx with hx | hx
      · exact hb.1 x hx
      · rw [List.mem_singleton.mp hx]
        exact hr
    · rw [if_neg hcomp]
      refine ⟨hb.1, ?_⟩
      intro x hx
      injection hx with hx
      rw [← hx]
      exact hr

/-- The attempt loop of `extract_recipes` preserves the no-`sub_recipe`
    property of the best result. -/
theorem extractLoop_roles (cc : Option Chapter) (pending : Option Recipe)
    (expected : Nat) (oracle : List (Option ExtractPayload)) (used : Nat)
    (best : ExtractResult)
    (hor : ∀ pay : ExtractPayload, some pay ∈ oracle → ∀ r ∈ pay.recipes, noSubRole r)
    (hpend : ∀ p, pending = some p → noSubRole p)
    (hbest : roleOk best) :
    roleOk (extractLoop cc pending expected oracle used best).1 := by
  induction oracle generalizing used best with
  | nil => simpa [extractLoop] using hbest
  | cons o rest ih =>
    have horRest : ∀ pay : ExtractPayload, some pay ∈ rest →
        ∀ r ∈ pay.recipes, noSubRole r :=
      fun pay hm => hor pay (List.mem_cons_of_mem o hm)
    rcases o with _ | payload
    · simp only [extractLoop]
      exact ih (used + 1) best horRest hbest
    · have hpay : ∀ r ∈ payload.recipes, noSubRole r :=
        hor payload (List.mem_cons_self _ _)
      have hpr := processRecipes_roles cc pending payload.recipes hpay hpend
      simp only [extractLoop]
      split
      · have hbest2 : roleOk (if (Nat.blt 0 (processRecipes cc pending payload.recipes).1.length
              || (processRecipes cc pending payload.recipes).2.isSome || used == 0) = true then
            ({ recipes := (processRecipes cc pending payload.recipes).1,
               leftover := (processRecipes cc pending payload.recipes).2,
               attemptTag := some (.numbered (used + 1)) } : ExtractResult)
          else best) := by
          split
          · exact ⟨hpr.1, hpr.2⟩
          · exact hbest
        split
        · exact hbest2
        · exact ih (used + 1) _ horRest hbest2
      · exact ih (used + 1) best horRest hbest

/-- A successful positional lookup exhibits a member of the list. -/
theorem memOfGetElem {α : Type} {l : List α} {i : Nat} {a : α}
    (h : l[i]? = some a) : a ∈ l := by
  induction l generalizing i with
  | nil => simp at h
  | cons x xs ih =>
    cases i with
    | zero =>
      rw [List.getElem?_cons_zero] at h
      injection h with h
      rw [← h]
      exact List.mem_cons_self x xs
    | succ j =>
      rw [List.getElem?_cons_succ] at h
      exact List.mem_cons_of_mem x (ih h)

/-- Chapter reassignment does not touch `dish_role`. -/
theorem reassignRecipe_dish_role (lookup : List (String × (String × Option String)))
    (r : Recipe) : (reassignRecipe lookup r).dish_role = r.dish_role := by
  unfold reassignRecipe
  dsimp only
  split
  · split
    · rfl
    · rfl
  · rfl

/-- One upsert step introduces no `sub_recipe` role that was not already on
    the catalog recipes or on the incoming recipe. -/
theorem upsertStep_roles (src : Option String) (st : UpsertState) (recipe : Recipe)
    (hst : ∀ x ∈ st.recipes, noSubRole x) (hr : noSubRole recipe) :
    ∀ x ∈ (upsertStep src st recipe).recipes, noSubRole x := by
  unfold upsertStep
  by_cases hn : (recipe.name == "") = true
  · rw [if_pos hn]
    exact hst
  · rw [if_neg hn]
    rcases hfind : findMatchIdx st recipe.name with _ | idx
    · dsimp only
      intro x hx
      rcases List.mem_append.mp hx with hx | hx
      · exact hst x hx
      · rw [List.mem_singleton.mp hx]
        exact hr
    · dsimp only
      have hold : noSubRole ((st.recipes[idx]?).getD {}) := by
        rcases hgo : st.recipes[idx]? with _ | o
        · intro hcontra
          exact Option.noConfusion hcontra
        · exact hst o (memOfGetElem hgo)
      split
      · intro x hx
        rcases List.mem_or_eq_of_mem_set hx with hx | hx
        · exact hst x hx
        · rw [hx]
          exact hold
      · intro x hx
        rcases List.mem_or_eq_of_mem_set hx with hx | hx
        · exact hst x hx
        · rw [hx]
          exact hr

/-- `upsert_recipes` never puts a `sub_recipe`-tagged recipe at top level
    unless one was already among the catalog or incoming recipes. -/
theorem upsertRecipes_roles (catalog : Catalog) (newRecipes : List Recipe)
    (newChapters : List Chapter) (src : Option String)
    (hcat : ∀ r ∈ catalog.recipes, noSubRole r)
    (hnew : ∀ r ∈ newRecipes, noSubRole r) :
    ∀ r ∈ (upsertRecipes catalog newRecipes newChapters src).1.recipes, noSubRole r := by
  unfold upsertRecipes reassignUnknownChapters
  dsimp only
  intro r hrm
  rcases List.mem_map.mp hrm with ⟨x, hx, hfx⟩
  have hxrole : noSubRole x := by
    refine foldl_preserves (fun st => ∀ y ∈ st.recipes, noSubRole y) noSubRole
      (upsertStep src) newRecipes _ hcat hnew
      (fun st a hst ha => upsertStep_roles src st a hst ha) x hx
  rw [← hfx]
  intro hcontra
  rw [reassignRecipe_dish_role] at hcontra
  exact hxrole hcontra

/-- `extract_recipes` never reports a `sub_recipe`-tagged recipe at top level
    unless the model replies or the pending recipe carried one. -/
theorem extractRecipes_roles (cc : Option Chapter) (pending : Option Recipe)
    (mr : Nat) (cls : Option Classification)
    (oracle : List (Option ExtractPayload)) (pa ps : Bool)
    (pp : Option ExtractPayload)
    (hor : ∀ pay : ExtractPayload, some pay ∈ oracle → ∀ r ∈ pay.recipes, noSubRole r)
    (hpp : ∀ pay : ExtractPayload, pp = some pay → ∀ r ∈ pay.recipes, noSubRole r)
    (hpend : ∀ p, pending = some p → noSubRole p) :
    roleOk (extractRecipes cc pending mr cls oracle pa ps pp).1 := by
  unfold extractRecipes
  dsimp only
  have hrun := extractLoop_roles cc pending
    (match cls with
     | some cl => cl.recipe_names_visible.length
     | none => 0)
    (oracle.take (min (mr + 1) 3)) 0 {}
    (fun pay hm => hor pay (List.take_subset _ _ hm))
    hpend
    ⟨by simp, by simp⟩
  split
  · split
    · rcases pp with _ | payload
      · exact hrun
      · dsimp only
        split
        · exact hrun
        · constructor
          · intro x hx
            rcases List.mem_map.mp hx with ⟨y, hy, hfy⟩
            have hyrole : noSubRole y := hpp payload rfl y hy
            rw [← hfy]
            intro hcontra
            rw [show ({ tagChapter cc y with preprocessed := true } : Recipe).dish_role
                = (tagChapter cc y).dish_role from rfl, tagChapter_dish_role] at hcontra
            exact hyrole hcontra
          · intro p hp
            exact Option.noConfusion hp
    · exact hrun
  · exact hrun

/-- C5 (counterexample): nothing filters `dish_role`.  A model reply tagging a
    top-level recipe `sub_recipe` flows straight through `extract_recipes`
    into the extraction result, and through `upsert_recipes` into the
    catalog's top-level recipe list. -/
theorem sub_recipe_reaches_top_level :
    (extractRecipes none none 0 none [some { recipes := [dressingR] }]
      false false none).1.recipes = [dressingR] ∧
    ((upsertRecipes { } [dressingR] [] (some "p1")).1.recipes.map
      Recipe.dish_role) = [some "sub_recipe"] := ⟨rfl, rfl⟩

/-- C5 (amended): extraction and upsert PRESERVE the absence of the
    `sub_recipe` role rather than enforce it — when no model reply, pending
    recipe, catalog recipe or incoming recipe carries `dish_role =
    sub_recipe`, neither the extraction result (complete or partial) nor the
    upserted catalog's top-level recipes do.  The invariant claimed by the
    spec holds only conditionally on the model output. -/
theorem extract_upsert_role_preservation (cc : Option Chapter)
    (pending : Option Recipe) (mr : Nat) (cls : Option Classification)
    (oracle : List (Option ExtractPayload)) (pa ps : Bool)
    (pp : Option ExtractPayload) (catalog : Catalog) (newRecipes : List Recipe)
    (newChapters : List Chapter) (src : Option String)
    (hor : ∀ pay : ExtractPayload, some pay ∈ oracle → ∀ r ∈ pay.recipes, noSubRole r)
    (hpp : ∀ pay : ExtractPayload, pp = some pay → ∀ r ∈ pay.recipes, noSubRole r)
    (hpend : ∀ p, pending = some p → noSubRole p)
    (hcat : ∀ r ∈ catalog.recipes, noSubRole r)
    (hnew : ∀ r ∈ newRecipes, noSubRole r) :
    roleOk (extractRecipes cc pending mr cls oracle pa ps pp).1 ∧
    ∀ r ∈ (upsertRecipes catalog newRecipes newChapters src).1.recipes, noSubRole r :=
  ⟨extractRecipes_roles cc pending mr cls oracle pa ps pp hor hpp hpend,
   upsertRecipes_roles catalog newRecipes newChapters src hcat hnew⟩

/-- C5 witness: a run on one plain main recipe, extracted and then upserted
    into an empty catalog, yields no `sub_recipe` role anywhere. -/
theorem extract_upsert_role_preservation_witness :
    roleOk (extractRecipes none none 0 none [some { recipes := [mainR] }]
      false false none).1 ∧
    ∀ r ∈ (upsertRecipes { } [mainR] [] none).1.recipes, noSubRole r := by
  refine extract_upsert_role_preservation none none 0 none
    [some { recipes := [mainR] }] false false none { } [mainR] [] none
    ?_ ?_ ?_ ?_ ?_
  · intro pay hm r hrr
    rw [List.mem_singleton] at hm
    injection hm with hm
    cases hm
    rw [List.mem_singleton.mp hrr]
    exact fun h => Option.noConfusion h
  · intro pay h
    exact Option.noConfusion h
  · intro p h
    exact Option.noConfusion h
  · intro r hrr
    exact absurd hrr (List.not_mem_nil r)
  · intro r hrr
    rw [List.mem_singleton.mp hrr]
    exact fun h => Option.noConfusion h
